import Mathlib

/-!
# LC-3 style virtual machine: loader and fetch-execute engine (`vmcpp.cpp`)

A shallow embedding of `vm_load` and `vm_execute` from `src/vmcpp.cpp`.

* 16-bit quantities are natural numbers; a read of a 16-bit field or a store
  through a 16-bit parameter is taken modulo `2 ^ 16` where the C code truncates.
* `int` fields (`running`, `debugger_enabled`, `debugger_steps`) are integers and
  are tested the way C tests them (non-zero is true).
* `assert` is modelled as an outcome of its own (the process aborts).
* The headers `util.hpp`, `vm.hpp` and `vm_ops.hpp` are not part of the sources at
  hand.  What `vmcpp.cpp` uses from them is either a parameter of the model (the
  sixteen instruction handlers, the debugger session) or modelled from the
  specification, and marked as such.
-/

namespace VM

/-! ## Machine state -/

/-- Index of the program counter in the register file.  The table in `get_reg_string`
lists `R_R0 .. R_R7, R_PC, R_COND, R_COUNT` in enumeration order. -/
def R_PC : Nat := 8

/-- Index of the condition register (see `get_reg_string`). -/
def R_COND : Nat := 9

/-- Number of registers (see `get_reg_string`). -/
def R_COUNT : Nat := 10

/-- Modelled from the spec: the constant `VM_MEM_SIZE` of `vm.hpp` (absent); the
specification fixes the memory at 65536 words of 16 bits. -/
def VM_MEM_SIZE : Nat := 65536

/-- Modelled from the spec: the constant `PC_START` of `vm.hpp` (absent), the fixed start
address `0x3000`. -/
def PC_START : Nat := 0x3000

/-- Modelled from the spec: `struct vm_state` of `vm.hpp` (absent), with the fields that
`vmcpp.cpp` reads and writes.  `mem_conds a` is the execution-breakpoint flag
(`VMDBG_MEM_EX`) of address `a`, the only flag this source tests. -/
structure vm_state where
  reg : Nat → Nat
  mem : Nat → Nat
  ir : Nat
  running : Int
  debugger_enabled : Int
  debugger_steps : Int
  mem_conds : Nat → Bool

/-! ## Program loader -/

/-- How a call of `vm_load` ends: it returns a status, or the `assert` on the load
address fails; both carry the machine state at that moment. -/
inductive load_outcome where
  | returned (status : Int) (v : vm_state)
  | assert_failed (v : vm_state)

/-- The machine state an outcome carries. -/
def load_outcome.state : load_outcome → vm_state
  | .returned _ v => v
  | .assert_failed v => v

/-- The read `image[i]` of a `uint8_t` buffer.  Every read the loader makes of a
non-empty even-length image is in range; out of range the model reads 0. -/
def image_byte (image : List (Fin 256)) (i : Nat) : Nat :=
  (image.getD i 0).val

/-- The big-endian 16-bit word `(image[i] << 8) | image[i + 1]`. -/
def image_word (image : List (Fin 256)) (i : Nat) : Nat :=
  (image_byte image i <<< 8) ||| image_byte image (i + 1)

/-- The loop `for (int i = 2; i < bytes; i += 2)` of `vm_load` (lines 63-67), from loop
index `i` and load address `addr` (a `uint32_t`). -/
def vm_load_loop (image : List (Fin 256)) (bytes : Nat) (i addr : Nat) (v : vm_state) :
    load_outcome :=
  if i < bytes then
    let val := image_word image i % 2 ^ 16
    if addr < VM_MEM_SIZE then
      vm_load_loop image bytes (i + 2) ((addr + 1) % 2 ^ 32)
        { v with mem := Function.update v.mem addr val }
    else
      .assert_failed v
  else
    .returned 0 v
termination_by bytes - i
decreasing_by omega

/-- The function `vm_load` (lines 47-71), given what `load_file` returned: `none` for a
`NULL` image, `some image` for a buffer of `image.length` bytes. -/
def vm_load (v : vm_state) (loaded : Option (List (Fin 256))) : load_outcome :=
  match loaded with
  | none => .returned 1 v
  | some image =>
    let bytes := image.length
    if bytes % 2 = 1 then
      .returned 1 v
    else
      let addr := image_word image 0 % 2 ^ 32
      vm_load_loop image bytes 2 addr v

/-- Modelled from the spec: `load_file` of `util.hpp` (absent).  A source is `none` when
it cannot be read and `some bytes` otherwise; the specification has the load fail as
unreadable when the source cannot be read or is empty, so no image is returned then. -/
def load_file (source : Option (List (Fin 256))) : Option (List (Fin 256)) :=
  match source with
  | none => none
  | some [] => none
  | some (b :: bs) => some (b :: bs)

/-- The memory after the loader has stored `m` words from image index `i` at `addr`. -/
def loaded_mem (image : List (Fin 256)) (i addr m : Nat) (mem : Nat → Nat) : Nat → Nat :=
  fun a => if addr ≤ a ∧ a < addr + m then image_word image (i + 2 * (a - addr)) else mem a

/-- A machine state with every word zero and the debugger off, used in examples. -/
def zero_state : vm_state :=
  { reg := fun _ => 0, mem := fun _ => 0, ir := 0, running := 0,
    debugger_enabled := 0, debugger_steps := -1, mem_conds := fun _ => false }

/-! ## Fetch-execute engine -/

/-- Modelled from the spec: the completion signals of `vm_ops.hpp` (absent).  The `switch`
of `vm_execute` tells `VM_NONE` and `VM_HALT` from every other value. -/
inductive vm_signal where
  | VM_NONE
  | VM_HALT
  | VM_OTHER (code : Nat)
  deriving DecidableEq, Repr

/-- Names of the sixteen handlers that the dispatch table of `vm_execute` holds. -/
inductive instr_handler where
  | vm_br | vm_add | vm_ld | vm_st
  | vm_jsr | vm_and | vm_ldr | vm_str
  | vm_rti | vm_not | vm_ldi | vm_sti
  | vm_jmp | vm_res | vm_lea | vm_trap
  deriving DecidableEq, Repr

/-- The table `vm_execute_instr[16]` (lines 77-83), in index order. -/
def vm_execute_instr : List instr_handler :=
  [ .vm_br,  .vm_add, .vm_ld,  .vm_st,
    .vm_jsr, .vm_and, .vm_ldr, .vm_str,
    .vm_rti, .vm_not, .vm_ldi, .vm_sti,
    .vm_jmp, .vm_res, .vm_lea, .vm_trap ]

/-- What a handler call leaves behind: its completion signal, the outside world (console)
and the machine state. -/
structure handler_result (ω : Type) where
  sig : vm_signal
  world : ω
  v : vm_state

/-- What a debugger session leaves behind when it returns control. -/
structure dbg_result (ω δ : Type) where
  session : δ
  world : ω
  v : vm_state

/-- The code `vm_execute` calls into and that is not part of the sources at hand: the
bodies of the sixteen handlers (`vm_ops.hpp`) and the debugger entry point `vm_dbg_run`.
Both are arbitrary functions of the machine state and of what is outside it: `ω` is the
world the guest program talks to, `δ` the debugger session (its user and its own data). -/
structure vm_env (ω δ : Type) where
  handler : instr_handler → ω → vm_state → handler_result ω
  vm_dbg_run : δ → ω → vm_state → Option String → dbg_result ω δ

/-- Observable steps of a run, recorded in order; the record is not part of the C state. -/
inductive vm_event where
  | fetch (pc ir : Nat)
  | dbg_run (msg : Option String)
  | dispatch (h : instr_handler) (sig : vm_signal)
  deriving DecidableEq, Repr

/-- Everything `vm_execute` works on: the machine state, the outside world, the debugger
session, the local `status`, and the record of events so far. -/
structure exec_state (ω δ : Type) where
  v : vm_state
  world : ω
  session : δ
  status : Int
  log : List vm_event

/-- Modelled from the spec: `vm_reg_read` of `vm.hpp` (absent), the 16-bit value of a
register. -/
def vm_reg_read (v : vm_state) (r : Nat) : Nat :=
  v.reg r % 2 ^ 16

/-- Modelled from the spec: `vm_reg_write` of `vm.hpp` (absent), as `vm_execute` calls it
(last argument 0): the register takes the value, truncated to 16 bits, and nothing else
changes. -/
def vm_reg_write (v : vm_state) (r : Nat) (val : Nat) : vm_state :=
  { v with reg := Function.update v.reg r (val % 2 ^ 16) }

/-- Modelled from the spec: `check_flag` of `vm.hpp` (absent) for the flag `VMDBG_MEM_EX`:
whether the address carries an execution breakpoint. -/
def check_flag (mem_conds : Nat → Bool) (addr : Nat) : Bool :=
  mem_conds addr

/-- The text `sprintf` writes for a breakpoint at `pc` (line 99); `%x` is lower-case
hexadecimal without padding. -/
def breakpoint_message (pc : Nat) : String :=
  "Debugger: Hit breakpoint at 0x" ++ String.mk (Nat.toDigits 16 pc) ++ "\n"

/-- The text of the first debugger call (line 92). -/
def usage_message : String :=
  "Use exit() or Ctrl-D (i.e. EOF) to exit"

/-- The local `pc` of an iteration (line 96). -/
def fetch_pc {ω δ : Type} (c : exec_state ω δ) : Nat :=
  vm_reg_read c.v R_PC

/-- Lines 96-97: read `pc`, latch the word at that address in `ir`. -/
def vm_fetch {ω δ : Type} (c : exec_state ω δ) : exec_state ω δ :=
  let pc := fetch_pc c
  let ir := c.v.mem pc
  { c with v := { c.v with ir := ir }, log := c.log ++ [.fetch pc ir] }

/-- A call of the debugger entry point: the session runs on the current state, and the
call is recorded. -/
def call_dbg {ω δ : Type} (env : vm_env ω δ) (c : exec_state ω δ) (msg : Option String) :
    exec_state ω δ :=
  let r := env.vm_dbg_run c.session c.world c.v msg
  { c with v := r.v, world := r.world, session := r.session, log := c.log ++ [.dbg_run msg] }

/-- Lines 98-104: the debugger pre-hook, for the fetch address `pc`. -/
def vm_pre_hook {ω δ : Type} (env : vm_env ω δ) (pc : Nat) (c : exec_state ω δ) :
    exec_state ω δ :=
  if c.v.debugger_enabled ≠ 0 ∧ check_flag c.v.mem_conds pc = true then
    call_dbg env c (some (breakpoint_message pc))
  else if c.v.debugger_enabled ≠ 0 ∧ c.v.debugger_steps = 0 then
    let c1 := call_dbg env c none
    { c1 with v := { c1.v with debugger_steps := -1 } }
  else
    c

/-- The index `(v->ir) >> 12` (line 108); `ir` is a 16-bit field. -/
def opcode (ir : Nat) : Nat :=
  (ir % 2 ^ 16) >>> 12

/-- The handler `vm_execute_instr[op]` selected by the latched word; the index is within
the table. -/
def selected_handler (ir : Nat) : instr_handler :=
  vm_execute_instr.get ⟨opcode ir, by
    unfold opcode
    rw [Nat.shiftRight_eq_div_pow]
    have h : ir % 2 ^ 16 < 2 ^ 16 := Nat.mod_lt _ (by norm_num)
    have h2 : ir % 2 ^ 16 / 2 ^ 12 < 16 := by omega
    simpa [vm_execute_instr] using h2⟩

/-- Line 106: `pc + 1` is written back to the program counter. -/
def vm_advance {ω δ : Type} (pc : Nat) (c : exec_state ω δ) : exec_state ω δ :=
  { c with v := vm_reg_write c.v R_PC (pc + 1) }

/-- The signal that the handler selected by `ir` returns on the current state. -/
def dispatch_signal {ω δ : Type} (env : vm_env ω δ) (c : exec_state ω δ) : vm_signal :=
  (env.handler (selected_handler c.v.ir) c.world c.v).sig

/-- Lines 108-123: decode, call the handler, interpret its completion signal. -/
def vm_dispatch {ω δ : Type} (env : vm_env ω δ) (c : exec_state ω δ) : exec_state ω δ :=
  let h := selected_handler c.v.ir
  let r := env.handler h c.world c.v
  let log := c.log ++ [.dispatch h r.sig]
  match r.sig with
  | .VM_NONE => { c with v := r.v, world := r.world, log := log }
  | .VM_HALT => { c with v := { r.v with running := 0 }, world := r.world, log := log }
  | .VM_OTHER _ =>
    { c with v := { r.v with running := 1 }, world := r.world, status := 1, log := log }

/-- Lines 125-127: the debugger post-hook. -/
def vm_post_hook {ω δ : Type} (c : exec_state ω δ) : exec_state ω δ :=
  if c.v.debugger_enabled ≠ 0 ∧ c.v.debugger_steps ≠ -1 then
    { c with v := { c.v with debugger_steps := c.v.debugger_steps - 1 } }
  else
    c

/-- The part of an iteration that follows the pre-hook (lines 106-127). -/
def vm_retire {ω δ : Type} (env : vm_env ω δ) (pc : Nat) (c : exec_state ω δ) :
    exec_state ω δ :=
  vm_post_hook (vm_dispatch env (vm_advance pc c))

/-- One iteration of the `while` loop (lines 96-127). -/
def vm_execute_iter {ω δ : Type} (env : vm_env ω δ) (c : exec_state ω δ) :
    exec_state ω δ :=
  let pc := fetch_pc c
  vm_retire env pc (vm_pre_hook env pc (vm_fetch c))

/-- The loop `while (v->running)` with a bound on the number of iterations: `none` when
the bound is used up with `running` still set. -/
def vm_execute_loop {ω δ : Type} (env : vm_env ω δ) :
    Nat → exec_state ω δ → Option (exec_state ω δ)
  | 0, c => if c.v.running ≠ 0 then none else some c
  | fuel + 1, c =>
    if c.v.running ≠ 0 then vm_execute_loop env fuel (vm_execute_iter env c) else some c

/-- Lines 86-93: what `vm_execute` does before the loop. -/
def vm_execute_start {ω δ : Type} (env : vm_env ω δ) (v : vm_state) (w : ω) (d : δ) :
    exec_state ω δ :=
  let v1 := { v with reg := Function.update v.reg R_PC PC_START }
  let v2 := { v1 with running := 1 }
  let c : exec_state ω δ := { v := v2, world := w, session := d, status := 0, log := [] }
  if v2.debugger_enabled ≠ 0 then call_dbg env c (some usage_message) else c

/-- The function `vm_execute` (lines 73-131); the returned status is the `status` of the
final state. -/
def vm_execute {ω δ : Type} (env : vm_env ω δ) (fuel : Nat) (v : vm_state) (w : ω) (d : δ) :
    Option (exec_state ω δ) :=
  vm_execute_loop env fuel (vm_execute_start env v w d)

/-- The state after `n` iterations of the loop body. -/
def iter_n {ω δ : Type} (env : vm_env ω δ) (n : Nat) (c : exec_state ω δ) :
    exec_state ω δ :=
  (vm_execute_iter env)^[n] c

/-- The completion signal of the handler dispatched in the iteration that starts in `c`. -/
def iter_signal {ω δ : Type} (env : vm_env ω δ) (c : exec_state ω δ) : vm_signal :=
  let pc := fetch_pc c
  dispatch_signal env (vm_advance pc (vm_pre_hook env pc (vm_fetch c)))

/-- Whether an event is a call of the debugger entry point. -/
def vm_event.is_dbg : vm_event → Bool
  | .dbg_run _ => true
  | _ => false

/-- Whether an event is a handler dispatch. -/
def vm_event.is_dispatch : vm_event → Bool
  | .dispatch _ _ => true
  | _ => false

/-- Whether an event is a fetch. -/
def vm_event.is_fetch : vm_event → Bool
  | .fetch _ _ => true
  | _ => false

/-- Invariant of the loop: the local `status` is 0 or 1, and it is 1 exactly when some
dispatched handler has returned a signal other than `VM_NONE` and `VM_HALT`. -/
def status_inv {ω δ : Type} (c : exec_state ω δ) : Prop :=
  (c.status = 0 ∨ c.status = 1) ∧
  (c.status ≠ 0 ↔ ∃ h code, vm_event.dispatch h (.VM_OTHER code) ∈ c.log)

/-- Two machine states agree on everything the instruction set works on: registers (pc
and cond among them), memory, the latched instruction and the run flag.  The debugger
fields (`debugger_enabled`, `debugger_steps`, breakpoint flags) are left out. -/
def arch_eq (s t : vm_state) : Prop :=
  s.reg = t.reg ∧ s.mem = t.mem ∧ s.ir = t.ir ∧ s.running = t.running

/-- Two execution states agree up to the debugger: same architectural state, same outside
world, same status, same fetches and same dispatches in the same order. -/
def sim {ω δ : Type} (c c1 : exec_state ω δ) : Prop :=
  arch_eq c.v c1.v ∧ c.world = c1.world ∧ c.status = c1.status ∧
  c.log.filter vm_event.is_fetch = c1.log.filter vm_event.is_fetch ∧
  c.log.filter vm_event.is_dispatch = c1.log.filter vm_event.is_dispatch

/-- An example of the absent code, used to run the engine on concrete programs: `vm_trap`
signals `VM_HALT`, the reserved `vm_rti` and `vm_res` signal another condition, every
other handler signals `VM_NONE`; `vm_add` adds one to R0 and no other handler writes the
state.  The debugger session only sets the step budget to 2. -/
def demo_env : vm_env Unit Unit where
  handler h _ s :=
    match h with
    | .vm_trap => { sig := .VM_HALT, world := (), v := s }
    | .vm_add =>
      { sig := .VM_NONE, world := (),
        v := { s with reg := Function.update s.reg 0 ((s.reg 0 + 1) % 2 ^ 16) } }
    | .vm_rti => { sig := .VM_OTHER 2, world := (), v := s }
    | .vm_res => { sig := .VM_OTHER 2, world := (), v := s }
    | _ => { sig := .VM_NONE, world := (), v := s }
  vm_dbg_run d _ s _ := { session := d, world := (), v := { s with debugger_steps := 2 } }

/-- An example program at `0x3000`: an `ADD` word, a reserved (`RES`) word, the halt trap;
every other memory word is 0 (a `BR` word). -/
def demo_mem : Nat → Nat :=
  fun a => if a = 0x3000 then 0x1021 else if a = 0x3001 then 0xD000
    else if a = 0x3002 then 0xF025 else 0

/-- The example program in a machine with the debugger off. -/
def demo_state : vm_state :=
  { zero_state with mem := demo_mem }

/-- The example program with the debugger on and no breakpoint. -/
def demo_step_state : vm_state :=
  { demo_state with debugger_enabled := 1 }

/-- The example program with the debugger on and an execution breakpoint on the start
address `0x3000`. -/
def demo_bp_state : vm_state :=
  { demo_state with debugger_enabled := 1, mem_conds := fun a => a == 0x3000 }

/-! ## Initialisation, and further examples -/

/-- The loop `for (int i = 0; i < n; i++) a[i] = 0` of `vm_init` (lines 22-28), on an
array seen as a function of the index. -/
def zero_fill (a : Nat → Nat) : Nat → Nat → Nat
  | 0 => a
  | n + 1 => Function.update (zero_fill a n) n 0

/-- The function `vm_init` (lines 18-37).  The debugger set-up `vm_dbg_init` is not part
of the sources at hand and is a parameter. -/
def vm_init (vm_dbg_init : vm_state → vm_state) (v : vm_state) (use_debugger : Int) :
    vm_state :=
  let v1 := { v with reg := zero_fill v.reg R_COUNT }
  let v2 := { v1 with mem := zero_fill v1.mem VM_MEM_SIZE }
  let v3 := { v2 with ir := 0, running := 0, debugger_enabled := use_debugger,
                      debugger_steps := -1 }
  if use_debugger ≠ 0 then vm_dbg_init v3 else v3

/-- The opcode table as the specification words it: opcode number to mnemonic, the
mnemonic standing for the handler of that name. -/
def spec_opcode_handler : Nat → Option instr_handler
  | 0 => some .vm_br
  | 1 => some .vm_add
  | 2 => some .vm_ld
  | 3 => some .vm_st
  | 4 => some .vm_jsr
  | 5 => some .vm_and
  | 6 => some .vm_ldr
  | 7 => some .vm_str
  | 8 => some .vm_rti
  | 9 => some .vm_not
  | 10 => some .vm_ldi
  | 11 => some .vm_sti
  | 12 => some .vm_jmp
  | 13 => some .vm_res
  | 14 => some .vm_lea
  | 15 => some .vm_trap
  | _ => none

/-- The example handlers with a debugger session that ends the run: the session counts
its calls; the first call (the one before the loop) changes nothing, every later call
clears `running` and changes nothing else. -/
def demo_quit_env : vm_env Unit Nat where
  handler := demo_env.handler
  vm_dbg_run d _ s _ :=
    { session := d + 1, world := (), v := if d = 0 then s else { s with running := 0 } }

/-- The example handlers with a debugger session that patches the program: the session
counts its calls; the first call changes nothing, every later call stores the halt trap
word at `0x3000` and changes nothing else. -/
def demo_patch_env : vm_env Unit Nat where
  handler := demo_env.handler
  vm_dbg_run d _ s _ :=
    { session := d + 1, world := (),
      v := if d = 0 then s else { s with mem := Function.update s.mem 0x3000 0xF025 } }

/-- A machine with the debugger on, a breakpoint on `0x3000` and a reserved (`RES`) word
there, the halt trap after it. -/
def demo_res_state : vm_state :=
  { zero_state with
    mem := fun a => if a = 0x3000 then 0xD000 else if a = 0x3001 then 0xF025 else 0,
    debugger_enabled := 1, mem_conds := fun a => a == 0x3000 }

/-- A loop head with the program counter on the last address `0xFFFF`, debugger off. -/
def demo_wrap_exec : exec_state Unit Unit :=
  { v := { demo_state with reg := fun _ => 0xFFFF, running := 1 },
    world := (), session := (), status := 0, log := [] }

/-- An example of the absent debugger set-up: it clears every breakpoint flag. -/
def demo_dbg_init (s : vm_state) : vm_state :=
  { s with mem_conds := fun _ => false }

/-! ## Loader: auxiliary facts -/

theorem image_byte_lt (image : List (Fin 256)) (i : Nat) : image_byte image i < 256 :=
  (image.getD i 0).isLt

theorem image_word_eq (image : List (Fin 256)) (i : Nat) :
    image_word image i = 256 * image_byte image i + image_byte image (i + 1) := by
  unfold image_word
  have h : image_byte image (i + 1) < 2 ^ 8 := image_byte_lt image (i + 1)
  rw [Nat.shiftLeft_eq, Nat.mul_comm, ← Nat.mul_add_lt_is_or h]

theorem image_word_lt (image : List (Fin 256)) (i : Nat) : image_word image i < 65536 := by
  rw [image_word_eq]
  have h1 := image_byte_lt image i
  have h2 := image_byte_lt image (i + 1)
  omega

theorem vm_load_loop_ok (image : List (Fin 256)) (bytes : Nat) :
    ∀ (m i addr : Nat) (v : vm_state), i + 2 * m = bytes → addr + m ≤ VM_MEM_SIZE →
      vm_load_loop image bytes i addr v
        = .returned 0 { v with mem := loaded_mem image i addr m v.mem } := by
  intro m
  induction m with
  | zero =>
    intro i addr v hi _
    rw [vm_load_loop, if_neg (by omega)]
    have : loaded_mem image i addr 0 v.mem = v.mem := by
      funext a
      simp [loaded_mem]
    rw [this]
  | succ m ih =>
    intro i addr v hi ha
    unfold VM_MEM_SIZE at ha
    rw [vm_load_loop, if_pos (by omega)]
    simp only []
    rw [if_pos (by unfold VM_MEM_SIZE; omega)]
    have hmod : (addr + 1) % 2 ^ 32 = addr + 1 := Nat.mod_eq_of_lt (by omega)
    rw [hmod, ih (i + 2) (addr + 1) _ (by omega) (by unfold VM_MEM_SIZE; omega)]
    congr 2
    funext a
    simp only [loaded_mem, Function.update]
    by_cases h1 : a = addr
    · subst h1
      simp [image_word_lt]
    · by_cases h2 : addr + 1 ≤ a ∧ a < addr + 1 + m
      · have h3 : addr ≤ a ∧ a < addr + (m + 1) := by omega
        have h4 : i + 2 + 2 * (a - (addr + 1)) = i + 2 * (a - addr) := by omega
        simp [h2, h3, h4]
      · have h3 : ¬ (addr ≤ a ∧ a < addr + (m + 1)) := by omega
        simp [h1, h2, h3]

theorem vm_load_loop_fail (image : List (Fin 256)) (bytes : Nat) :
    ∀ (m i addr : Nat) (v : vm_state), i + 2 * m = bytes → addr ≤ VM_MEM_SIZE →
      VM_MEM_SIZE < addr + m →
      ∃ v1, vm_load_loop image bytes i addr v = .assert_failed v1 := by
  intro m
  induction m with
  | zero =>
    intro i addr v _ h1 h2
    omega
  | succ m ih =>
    intro i addr v hi h1 h2
    unfold VM_MEM_SIZE at h1 h2
    rw [vm_load_loop, if_pos (by omega)]
    simp only []
    by_cases h : addr < VM_MEM_SIZE
    · rw [if_pos h]
      unfold VM_MEM_SIZE at h
      have hmod : (addr + 1) % 2 ^ 32 = addr + 1 := Nat.mod_eq_of_lt (by omega)
      rw [hmod]
      exact ih (i + 2) (addr + 1) _ (by omega) (by unfold VM_MEM_SIZE; omega)
        (by unfold VM_MEM_SIZE; omega)
    · rw [if_neg h]
      exact ⟨v, rfl⟩

theorem vm_load_loop_frame (image : List (Fin 256)) (bytes : Nat) :
    ∀ (k i addr : Nat) (v : vm_state), bytes - i ≤ k →
      (vm_load_loop image bytes i addr v).state.reg = v.reg ∧
      (vm_load_loop image bytes i addr v).state.ir = v.ir ∧
      (vm_load_loop image bytes i addr v).state.running = v.running ∧
      (vm_load_loop image bytes i addr v).state.debugger_enabled = v.debugger_enabled ∧
      (vm_load_loop image bytes i addr v).state.debugger_steps = v.debugger_steps ∧
      (vm_load_loop image bytes i addr v).state.mem_conds = v.mem_conds := by
  intro k
  induction k with
  | zero =>
    intro i addr v hk
    rw [vm_load_loop, if_neg (by omega)]
    simp [load_outcome.state]
  | succ k ih =>
    intro i addr v hk
    rw [vm_load_loop]
    by_cases hi : i < bytes
    · rw [if_pos hi]
      simp only []
      by_cases h : addr < VM_MEM_SIZE
      · rw [if_pos h]
        exact ih (i + 2) _ _ (by omega)
      · rw [if_neg h]
        simp [load_outcome.state]
    · rw [if_neg hi]
      simp [load_outcome.state]

theorem vm_load_even (v : vm_state) (image : List (Fin 256)) (n : Nat)
    (hlen : image.length = 2 + 2 * n) :
    vm_load v (some image)
      = vm_load_loop image image.length 2
          (256 * image_byte image 0 + image_byte image 1) v := by
  have hmod : image_word image 0 % 2 ^ 32 = 256 * image_byte image 0 + image_byte image 1 := by
    have h := image_word_lt image 0
    rw [Nat.mod_eq_of_lt (by omega), image_word_eq]
  simp only [vm_load]
  rw [if_neg (by omega), hmod]

/-- A buffer of zero bytes that is not `NULL` passes the parity test; the loop body never
runs and the load returns 0. -/
theorem vm_load_empty_buffer (v : vm_state) : vm_load v (some []) = .returned 0 v := by
  simp [vm_load, vm_load_loop]

/-! ## Loader: the claims -/

/-- C1: for an image of `2 + 2 * n` bytes whose first two bytes give the origin `o`
big-endian and with `o + n ≤ 65536`, `vm_load` returns 0; afterwards `mem[o + k]` is the
big-endian word of bytes `2 + 2 * k` and `3 + 2 * k` for every `k < n`, and every address
outside `[o, o + n)` keeps the value it had. -/
theorem C1_vm_load_stores_words (v : vm_state) (image : List (Fin 256)) (n : Nat)
    (hlen : image.length = 2 + 2 * n)
    (hfit : 256 * image_byte image 0 + image_byte image 1 + n ≤ 65536) :
    ∃ v1, vm_load v (some image) = .returned 0 v1 ∧
      (∀ k, k < n →
        v1.mem (256 * image_byte image 0 + image_byte image 1 + k)
          = 256 * image_byte image (2 + 2 * k) + image_byte image (3 + 2 * k)) ∧
      (∀ a, (a < 256 * image_byte image 0 + image_byte image 1 ∨
            256 * image_byte image 0 + image_byte image 1 + n ≤ a) →
        v1.mem a = v.mem a) := by
  refine ⟨{ v with mem := (loaded_mem image 2
      (256 * image_byte image 0 + image_byte image 1) n v.mem) }, ?_, ?_, ?_⟩
  · rw [vm_load_even v image n hlen]
    exact vm_load_loop_ok image image.length n 2 _ v (by omega) hfit
  · intro k hk
    simp only [loaded_mem]
    rw [if_pos (by omega), image_word_eq]
    have h1 : 2 + 2 * (256 * image_byte image 0 + image_byte image 1 + k
        - (256 * image_byte image 0 + image_byte image 1)) = 2 + 2 * k := by omega
    rw [h1, show 2 + 2 * k + 1 = 3 + 2 * k by omega]
  · intro a ha
    simp only [loaded_mem]
    rw [if_neg (by omega)]

/-- C1, on the two-word image `[0x3000, 0x1234]`: the load returns 0 and leaves
`mem[0x3000] = 0x1234`. -/
theorem C1_vm_load_stores_words_witness :
    ∃ v1, vm_load zero_state (some [0x30, 0x00, 0x12, 0x34]) = .returned 0 v1 ∧
      v1.mem 0x3000 = 0x1234 := by
  obtain ⟨v1, h0, h1, _⟩ :=
    C1_vm_load_stores_words zero_state [0x30, 0x00, 0x12, 0x34] 1 (by decide) (by decide)
  exact ⟨v1, h0, h1 0 (by decide)⟩

/-- C2: for an even-length image with origin `o` and `n` payload words, if `o + n` exceeds
65536 the assertion `addr < VM_MEM_SIZE` fails (so `vm_load` does not return), and if
`o + n` is exactly 65536 the load returns 0. -/
theorem C2_vm_load_out_of_bounds (v : vm_state) (image : List (Fin 256)) (n : Nat)
    (hlen : image.length = 2 + 2 * n) :
    (65536 < 256 * image_byte image 0 + image_byte image 1 + n →
      ∃ v1, vm_load v (some image) = .assert_failed v1) ∧
    (256 * image_byte image 0 + image_byte image 1 + n = 65536 →
      ∃ v1, vm_load v (some image) = .returned 0 v1) := by
  constructor
  · intro h
    rw [vm_load_even v image n hlen]
    have h1 := image_byte_lt image 0
    have h2 := image_byte_lt image 1
    exact vm_load_loop_fail image image.length n 2 _ v (by omega)
      (by unfold VM_MEM_SIZE; omega) h
  · intro h
    rw [vm_load_even v image n hlen]
    exact ⟨_, vm_load_loop_ok image image.length n 2 _ v (by omega)
      (by unfold VM_MEM_SIZE; omega)⟩

/-- C2, at origin `0xFFFF`: two payload words overrun the memory and the assertion
fails, one payload word fits exactly and the load returns 0. -/
theorem C2_vm_load_out_of_bounds_witness :
    (∃ v1, vm_load zero_state (some [0xFF, 0xFF, 0, 1, 0, 2]) = .assert_failed v1) ∧
    (∃ v1, vm_load zero_state (some [0xFF, 0xFF, 0, 1]) = .returned 0 v1) :=
  ⟨(C2_vm_load_out_of_bounds zero_state [0xFF, 0xFF, 0, 1, 0, 2] 2 (by decide)).1
      (by decide),
   (C2_vm_load_out_of_bounds zero_state [0xFF, 0xFF, 0, 1] 1 (by decide)).2 (by decide)⟩

/-- C3, as stated, fails: the one-byte image `[7]` and an unreadable source end in the
very same outcome (status 1, state untouched), so the odd-length failure cannot be told
from the unreadable one. -/
theorem C3_odd_length_not_distinguished :
    vm_load zero_state (some [7]) = .returned 1 zero_state ∧
    vm_load zero_state none = .returned 1 zero_state ∧
    vm_load zero_state (some [7]) = vm_load zero_state none :=
  ⟨rfl, rfl, rfl⟩

/-- C3, amended: for every image whose byte count is odd, whatever the bytes, `vm_load`
returns the failure status 1, the same outcome as for an unreadable source, and leaves
the whole machine state unchanged. -/
theorem C3_vm_load_odd_length (v : vm_state) (image : List (Fin 256))
    (hodd : image.length % 2 = 1) :
    vm_load v (some image) = .returned 1 v ∧
    vm_load v (some image) = vm_load v none := by
  have h : vm_load v (some image) = .returned 1 v := by
    simp only [vm_load]
    rw [if_pos hodd]
  exact ⟨h, by rw [h]; rfl⟩

/-- C3 amended, on the three-byte image `[0x30, 0x00, 0x12]`. -/
theorem C3_vm_load_odd_length_witness :
    vm_load zero_state (some [0x30, 0x00, 0x12]) = .returned 1 zero_state ∧
    vm_load zero_state (some [0x30, 0x00, 0x12]) = vm_load zero_state none :=
  C3_vm_load_odd_length zero_state [0x30, 0x00, 0x12] (by decide)

/-- C4: when the source cannot be read or is empty, `load_file` hands no image to
`vm_load`, which returns the failure status 1 at once: no origin is read and the machine
state is unchanged. -/
theorem C4_vm_load_unreadable_or_empty (v : vm_state) (source : Option (List (Fin 256)))
    (h : source = none ∨ source = some []) :
    load_file source = none ∧ vm_load v (load_file source) = .returned 1 v := by
  rcases h with h | h <;> subst h <;> exact ⟨rfl, rfl⟩

/-- C4, on the empty source. -/
theorem C4_vm_load_unreadable_or_empty_witness :
    load_file (some []) = none ∧
    vm_load zero_state (load_file (some [])) = .returned 1 zero_state :=
  C4_vm_load_unreadable_or_empty zero_state (some []) (Or.inr rfl)

/-- C5: whatever the machine state and whatever `load_file` returned, and however the
load ends, `vm_load` leaves every field other than `mem` as it was: the registers
(R0-R7, pc, cond), `ir`, `running`, `debugger_enabled`, `debugger_steps` and the
breakpoint flags. -/
theorem C5_vm_load_frame (v : vm_state) (loaded : Option (List (Fin 256))) :
    (vm_load v loaded).state.reg = v.reg ∧
    (vm_load v loaded).state.ir = v.ir ∧
    (vm_load v loaded).state.running = v.running ∧
    (vm_load v loaded).state.debugger_enabled = v.debugger_enabled ∧
    (vm_load v loaded).state.debugger_steps = v.debugger_steps ∧
    (vm_load v loaded).state.mem_conds = v.mem_conds := by
  cases loaded with
  | none => simp [vm_load, load_outcome.state]
  | some image =>
    simp only [vm_load]
    by_cases hodd : image.length % 2 = 1
    · rw [if_pos hodd]
      simp [load_outcome.state]
    · rw [if_neg hodd]
      exact vm_load_loop_frame image image.length image.length 2 _ v (by omega)

/-! ## Engine: auxiliary facts -/

section engine
variable {ω δ : Type}

theorem vm_execute_loop_done (env : vm_env ω δ) (fuel : Nat) (c : exec_state ω δ)
    (h : c.v.running = 0) : vm_execute_loop env fuel c = some c := by
  cases fuel <;> simp [vm_execute_loop, h]

theorem vm_execute_loop_step (env : vm_env ω δ) (fuel : Nat) (c : exec_state ω δ)
    (h : c.v.running ≠ 0) :
    vm_execute_loop env (fuel + 1) c = vm_execute_loop env fuel (vm_execute_iter env c) := by
  simp [vm_execute_loop, h]

theorem iter_n_succ (env : vm_env ω δ) (n : Nat) (c : exec_state ω δ) :
    iter_n env (n + 1) c = vm_execute_iter env (iter_n env n c) := by
  simp [iter_n, Function.iterate_succ_apply']

theorem iter_n_succ_left (env : vm_env ω δ) (n : Nat) (c : exec_state ω δ) :
    iter_n env (n + 1) c = iter_n env n (vm_execute_iter env c) := by
  simp [iter_n, Function.iterate_succ_apply]

theorem iter_n_zero (env : vm_env ω δ) (c : exec_state ω δ) : iter_n env 0 c = c := rfl

/-- While `running` stays set, the loop goes through the iterations one by one. -/
theorem vm_execute_loop_iter_n (env : vm_env ω δ) :
    ∀ (n fuel : Nat) (c : exec_state ω δ),
      (∀ j, j < n → (iter_n env j c).v.running ≠ 0) →
      vm_execute_loop env (n + fuel) c = vm_execute_loop env fuel (iter_n env n c) := by
  intro n
  induction n with
  | zero =>
    intro fuel c _
    simp [iter_n_zero]
  | succ n ih =>
    intro fuel c h
    have h0 : c.v.running ≠ 0 := h 0 (by omega)
    rw [show n + 1 + fuel = (n + fuel) + 1 by omega, vm_execute_loop_step env _ c h0,
      ih fuel (vm_execute_iter env c) ?_, iter_n_succ_left]
    intro j hj
    rw [← iter_n_succ_left]
    exact h (j + 1) (by omega)

/-- A loop that never sees `running` cleared uses up every bound. -/
theorem vm_execute_loop_none (env : vm_env ω δ) :
    ∀ (fuel : Nat) (c : exec_state ω δ),
      (∀ j, (iter_n env j c).v.running ≠ 0) → vm_execute_loop env fuel c = none := by
  intro fuel
  induction fuel with
  | zero =>
    intro c h
    have h0 : c.v.running ≠ 0 := h 0
    simp [vm_execute_loop, h0]
  | succ fuel ih =>
    intro c h
    have h0 : c.v.running ≠ 0 := h 0
    rw [vm_execute_loop_step env fuel c h0]
    apply ih
    intro j
    rw [← iter_n_succ_left]
    exact h (j + 1)

/-- A loop that returns has run some number `n` of iterations: `running` was set before
each of them and is clear after the last. -/
theorem vm_execute_loop_some (env : vm_env ω δ) :
    ∀ (fuel : Nat) (c cf : exec_state ω δ), vm_execute_loop env fuel c = some cf →
      ∃ n, n ≤ fuel ∧ cf = iter_n env n c ∧ cf.v.running = 0 ∧
        ∀ j, j < n → (iter_n env j c).v.running ≠ 0 := by
  intro fuel
  induction fuel with
  | zero =>
    intro c cf h
    by_cases h0 : c.v.running = 0
    · rw [vm_execute_loop_done env 0 c h0] at h
      cases h
      exact ⟨0, le_refl _, rfl, h0, by intro j hj; omega⟩
    · simp [vm_execute_loop, h0] at h
  | succ fuel ih =>
    intro c cf h
    by_cases h0 : c.v.running = 0
    · rw [vm_execute_loop_done env _ c h0] at h
      cases h
      exact ⟨0, Nat.zero_le _, rfl, h0, by intro j hj; omega⟩
    · rw [vm_execute_loop_step env fuel c h0] at h
      obtain ⟨n, hn, hcf, hrun, hbefore⟩ := ih _ _ h
      refine ⟨n + 1, by omega, ?_, hrun, ?_⟩
      · rw [iter_n_succ_left]; exact hcf
      · intro j hj
        cases j with
        | zero => exact h0
        | succ j =>
          rw [iter_n_succ_left]
          exact hbefore j (by omega)

/-! ### One iteration, field by field -/

theorem vm_fetch_v (c : exec_state ω δ) :
    (vm_fetch c).v = { c.v with ir := c.v.mem (fetch_pc c) } := rfl

theorem vm_fetch_log (c : exec_state ω δ) :
    (vm_fetch c).log = c.log ++ [.fetch (fetch_pc c) (c.v.mem (fetch_pc c))] := rfl

theorem vm_pre_hook_disabled (env : vm_env ω δ) (pc : Nat) (c : exec_state ω δ)
    (h : c.v.debugger_enabled = 0) : vm_pre_hook env pc c = c := by
  simp [vm_pre_hook, h]

theorem vm_post_hook_disabled (c : exec_state ω δ) (h : c.v.debugger_enabled = 0) :
    vm_post_hook c = c := by
  simp [vm_post_hook, h]

theorem vm_post_hook_running (c : exec_state ω δ) :
    (vm_post_hook c).v.running = c.v.running := by
  unfold vm_post_hook
  split <;> rfl

theorem vm_post_hook_status (c : exec_state ω δ) : (vm_post_hook c).status = c.status := by
  unfold vm_post_hook
  split <;> rfl

theorem vm_post_hook_log (c : exec_state ω δ) : (vm_post_hook c).log = c.log := by
  unfold vm_post_hook
  split <;> rfl

theorem vm_post_hook_enabled (c : exec_state ω δ) :
    (vm_post_hook c).v.debugger_enabled = c.v.debugger_enabled := by
  unfold vm_post_hook
  split <;> rfl

theorem vm_dispatch_none (env : vm_env ω δ) (c : exec_state ω δ)
    (h : dispatch_signal env c = .VM_NONE) :
    vm_dispatch env c
      = { c with
          v := (env.handler (selected_handler c.v.ir) c.world c.v).v,
          world := (env.handler (selected_handler c.v.ir) c.world c.v).world,
          log := c.log ++ [.dispatch (selected_handler c.v.ir) .VM_NONE] } := by
  unfold dispatch_signal at h
  simp only [vm_dispatch, h]

theorem vm_dispatch_halt (env : vm_env ω δ) (c : exec_state ω δ)
    (h : dispatch_signal env c = .VM_HALT) :
    vm_dispatch env c
      = { c with
          v := { (env.handler (selected_handler c.v.ir) c.world c.v).v with running := 0 },
          world := (env.handler (selected_handler c.v.ir) c.world c.v).world,
          log := c.log ++ [.dispatch (selected_handler c.v.ir) .VM_HALT] } := by
  unfold dispatch_signal at h
  simp only [vm_dispatch, h]

theorem vm_dispatch_other (env : vm_env ω δ) (c : exec_state ω δ) (code : Nat)
    (h : dispatch_signal env c = .VM_OTHER code) :
    vm_dispatch env c
      = { c with
          v := { (env.handler (selected_handler c.v.ir) c.world c.v).v with running := 1 },
          world := (env.handler (selected_handler c.v.ir) c.world c.v).world,
          status := 1,
          log := c.log ++ [.dispatch (selected_handler c.v.ir) (.VM_OTHER code)] } := by
  unfold dispatch_signal at h
  simp only [vm_dispatch, h]

theorem vm_dispatch_log (env : vm_env ω δ) (c : exec_state ω δ) :
    (vm_dispatch env c).log
      = c.log ++ [.dispatch (selected_handler c.v.ir) (dispatch_signal env c)] := by
  cases h : dispatch_signal env c with
  | VM_NONE => rw [vm_dispatch_none env c h]
  | VM_HALT => rw [vm_dispatch_halt env c h]
  | VM_OTHER code => rw [vm_dispatch_other env c code h]

theorem vm_dispatch_running (env : vm_env ω δ) (c : exec_state ω δ) :
    (vm_dispatch env c).v.running
      = match dispatch_signal env c with
        | .VM_NONE => (env.handler (selected_handler c.v.ir) c.world c.v).v.running
        | .VM_HALT => 0
        | .VM_OTHER _ => 1 := by
  cases h : dispatch_signal env c with
  | VM_NONE => rw [vm_dispatch_none env c h]
  | VM_HALT => rw [vm_dispatch_halt env c h]
  | VM_OTHER code => rw [vm_dispatch_other env c code h]

theorem vm_dispatch_status (env : vm_env ω δ) (c : exec_state ω δ) :
    (vm_dispatch env c).status
      = match dispatch_signal env c with
        | .VM_OTHER _ => 1
        | _ => c.status := by
  cases h : dispatch_signal env c with
  | VM_NONE => rw [vm_dispatch_none env c h]
  | VM_HALT => rw [vm_dispatch_halt env c h]
  | VM_OTHER code => rw [vm_dispatch_other env c code h]

theorem vm_dispatch_enabled (env : vm_env ω δ) (c : exec_state ω δ) :
    (vm_dispatch env c).v.debugger_enabled
      = (env.handler (selected_handler c.v.ir) c.world c.v).v.debugger_enabled := by
  cases h : dispatch_signal env c with
  | VM_NONE => rw [vm_dispatch_none env c h]
  | VM_HALT => rw [vm_dispatch_halt env c h]
  | VM_OTHER code => rw [vm_dispatch_other env c code h]

theorem vm_dispatch_steps (env : vm_env ω δ) (c : exec_state ω δ) :
    (vm_dispatch env c).v.debugger_steps
      = (env.handler (selected_handler c.v.ir) c.world c.v).v.debugger_steps := by
  cases h : dispatch_signal env c with
  | VM_NONE => rw [vm_dispatch_none env c h]
  | VM_HALT => rw [vm_dispatch_halt env c h]
  | VM_OTHER code => rw [vm_dispatch_other env c code h]

theorem vm_pre_hook_log (env : vm_env ω δ) (pc : Nat) (c : exec_state ω δ) :
    (vm_pre_hook env pc c).log
      = c.log ++
        (if c.v.debugger_enabled ≠ 0 ∧ check_flag c.v.mem_conds pc = true then
          [.dbg_run (some (breakpoint_message pc))]
        else if c.v.debugger_enabled ≠ 0 ∧ c.v.debugger_steps = 0 then [.dbg_run none]
        else []) := by
  unfold vm_pre_hook
  split
  · rfl
  · split
    · rfl
    · simp

theorem vm_pre_hook_status (env : vm_env ω δ) (pc : Nat) (c : exec_state ω δ) :
    (vm_pre_hook env pc c).status = c.status := by
  unfold vm_pre_hook
  split
  · rfl
  · split <;> rfl

theorem iter_log (env : vm_env ω δ) (c : exec_state ω δ) :
    (vm_execute_iter env c).log
      = (vm_pre_hook env (fetch_pc c) (vm_fetch c)).log
        ++ [.dispatch (selected_handler (vm_pre_hook env (fetch_pc c) (vm_fetch c)).v.ir)
              (iter_signal env c)] := by
  simp only [vm_execute_iter, vm_retire, vm_post_hook_log, vm_dispatch_log, iter_signal]
  rfl

theorem iter_status (env : vm_env ω δ) (c : exec_state ω δ) :
    (vm_execute_iter env c).status
      = match iter_signal env c with
        | .VM_OTHER _ => 1
        | _ => c.status := by
  simp only [vm_execute_iter, vm_retire, vm_post_hook_status, vm_dispatch_status, iter_signal]
  have h : (vm_advance (fetch_pc c) (vm_pre_hook env (fetch_pc c) (vm_fetch c))).status
      = c.status := by
    show (vm_pre_hook env (fetch_pc c) (vm_fetch c)).status = c.status
    rw [vm_pre_hook_status]
    rfl
  rw [h]

/-- A signal other than `VM_NONE` and `VM_HALT` leaves `running` set at the end of the
iteration; `VM_HALT` leaves it clear. -/
theorem iter_running (env : vm_env ω δ) (c : exec_state ω δ) :
    (vm_execute_iter env c).v.running
      = match iter_signal env c with
        | .VM_NONE =>
          (env.handler
            (selected_handler (vm_advance (fetch_pc c)
              (vm_pre_hook env (fetch_pc c) (vm_fetch c))).v.ir)
            (vm_advance (fetch_pc c) (vm_pre_hook env (fetch_pc c) (vm_fetch c))).world
            (vm_advance (fetch_pc c) (vm_pre_hook env (fetch_pc c) (vm_fetch c))).v).v.running
        | .VM_HALT => 0
        | .VM_OTHER _ => 1 := by
  simp only [vm_execute_iter, vm_retire, vm_post_hook_running, vm_dispatch_running, iter_signal]

/-! ### Iterations with the debugger off -/

theorem iter_disabled (env : vm_env ω δ) (c : exec_state ω δ)
    (hdis : c.v.debugger_enabled = 0) :
    vm_execute_iter env c
      = vm_post_hook (vm_dispatch env (vm_advance (fetch_pc c) (vm_fetch c))) := by
  simp only [vm_execute_iter, vm_retire]
  rw [vm_pre_hook_disabled env _ _ (by rw [vm_fetch_v]; exact hdis)]

theorem iter_signal_disabled (env : vm_env ω δ) (c : exec_state ω δ)
    (hdis : c.v.debugger_enabled = 0) :
    iter_signal env c = dispatch_signal env (vm_advance (fetch_pc c) (vm_fetch c)) := by
  simp only [iter_signal]
  rw [vm_pre_hook_disabled env _ _ (by rw [vm_fetch_v]; exact hdis)]

theorem iter_disabled_enabled (env : vm_env ω δ)
    (hh_en : ∀ h w s, (env.handler h w s).v.debugger_enabled = s.debugger_enabled)
    (c : exec_state ω δ) (hdis : c.v.debugger_enabled = 0) :
    (vm_execute_iter env c).v.debugger_enabled = 0 := by
  rw [iter_disabled env c hdis, vm_post_hook_enabled, vm_dispatch_enabled, hh_en]
  exact hdis

theorem iter_disabled_running (env : vm_env ω δ)
    (hh_run : ∀ h w s, (env.handler h w s).v.running = s.running)
    (c : exec_state ω δ) (hdis : c.v.debugger_enabled = 0) :
    (vm_execute_iter env c).v.running
      = match iter_signal env c with
        | .VM_NONE => c.v.running
        | .VM_HALT => 0
        | .VM_OTHER _ => 1 := by
  rw [iter_signal_disabled env c hdis, iter_disabled env c hdis, vm_post_hook_running,
    vm_dispatch_running, hh_run]
  rfl

theorem iter_disabled_log (env : vm_env ω δ) (c : exec_state ω δ)
    (hdis : c.v.debugger_enabled = 0) :
    (vm_execute_iter env c).log
      = c.log ++ [.fetch (fetch_pc c) (c.v.mem (fetch_pc c)),
          .dispatch (selected_handler (c.v.mem (fetch_pc c))) (iter_signal env c)] := by
  rw [iter_signal_disabled env c hdis, iter_disabled env c hdis, vm_post_hook_log,
    vm_dispatch_log]
  show (c.log ++ [_]) ++ [_] = _
  simp [vm_advance, vm_reg_write, vm_fetch_v]

theorem vm_execute_start_disabled (env : vm_env ω δ) (v : vm_state) (w : ω) (d : δ)
    (hdis : v.debugger_enabled = 0) :
    vm_execute_start env v w d
      = { v := { v with reg := Function.update v.reg R_PC PC_START, running := 1 },
          world := w, session := d, status := 0, log := [] } := by
  simp [vm_execute_start, hdis]

theorem iter_n_disabled_enabled (env : vm_env ω δ)
    (hh_en : ∀ h w s, (env.handler h w s).v.debugger_enabled = s.debugger_enabled)
    (c : exec_state ω δ) (hdis : c.v.debugger_enabled = 0) :
    ∀ j, (iter_n env j c).v.debugger_enabled = 0 := by
  intro j
  induction j with
  | zero => exact hdis
  | succ j ih =>
    rw [iter_n_succ]
    exact iter_disabled_enabled env hh_en _ ih

theorem iter_n_disabled_counts (env : vm_env ω δ)
    (hh_en : ∀ h w s, (env.handler h w s).v.debugger_enabled = s.debugger_enabled)
    (c : exec_state ω δ) (hdis : c.v.debugger_enabled = 0) :
    ∀ j, ((iter_n env j c).log.filter vm_event.is_fetch).length
          = (c.log.filter vm_event.is_fetch).length + j ∧
        ((iter_n env j c).log.filter vm_event.is_dispatch).length
          = (c.log.filter vm_event.is_dispatch).length + j := by
  intro j
  induction j with
  | zero => exact ⟨rfl, rfl⟩
  | succ j ih =>
    rw [iter_n_succ, iter_disabled_log env _ (iter_n_disabled_enabled env hh_en c hdis j)]
    simp only [List.filter_append, List.length_append, ih.1, ih.2]
    simp [List.filter, vm_event.is_fetch, vm_event.is_dispatch]
    omega

/-- With the debugger off and handlers that leave `running` alone, `running` stays set as
long as no handler signals `VM_HALT`. -/
theorem iter_n_disabled_running (env : vm_env ω δ)
    (hh_en : ∀ h w s, (env.handler h w s).v.debugger_enabled = s.debugger_enabled)
    (hh_run : ∀ h w s, (env.handler h w s).v.running = s.running)
    (c : exec_state ω δ) (hdis : c.v.debugger_enabled = 0) (hrun : c.v.running ≠ 0) :
    ∀ n, (∀ j, j < n → iter_signal env (iter_n env j c) ≠ .VM_HALT) →
      (iter_n env n c).v.running ≠ 0 := by
  intro n
  induction n with
  | zero => intro _; exact hrun
  | succ n ih =>
    intro h
    have hprev := ih (fun j hj => h j (by omega))
    have hsig := h n (by omega)
    rw [iter_n_succ,
      iter_disabled_running env hh_run _ (iter_n_disabled_enabled env hh_en c hdis n)]
    cases hs : iter_signal env (iter_n env n c) with
    | VM_NONE => exact hprev
    | VM_HALT => exact absurd hs hsig
    | VM_OTHER code => simp

/-! ### The status of a run -/

theorem iter_log_events (env : vm_env ω δ) (c : exec_state ω δ) :
    ∃ dbgs : List vm_event, (∀ e, e ∈ dbgs → e.is_dbg = true) ∧ dbgs.length ≤ 1 ∧
      (vm_execute_iter env c).log
        = c.log ++ .fetch (fetch_pc c) (c.v.mem (fetch_pc c)) :: dbgs
          ++ [.dispatch (selected_handler (vm_pre_hook env (fetch_pc c) (vm_fetch c)).v.ir)
                (iter_signal env c)] := by
  rw [iter_log, vm_pre_hook_log, vm_fetch_log]
  split
  · exact ⟨[.dbg_run (some (breakpoint_message (fetch_pc c)))],
      by simp [vm_event.is_dbg], by simp, by simp⟩
  · split
    · exact ⟨[.dbg_run none], by simp [vm_event.is_dbg], by simp, by simp⟩
    · exact ⟨[], by simp, by simp, by simp⟩

theorem status_inv_start (env : vm_env ω δ) (v : vm_state) (w : ω) (d : δ) :
    status_inv (vm_execute_start env v w d) := by
  unfold vm_execute_start
  simp only []
  split <;> simp [status_inv, call_dbg]

theorem status_inv_iter (env : vm_env ω δ) (c : exec_state ω δ) (h : status_inv c) :
    status_inv (vm_execute_iter env c) := by
  obtain ⟨dbgs, hd, _, hlog⟩ := iter_log_events env c
  obtain ⟨h01, hiff⟩ := h
  have hnot : ∀ h code, vm_event.dispatch h (.VM_OTHER code) ∉ dbgs := by
    intro h code hmem
    have := hd _ hmem
    simp [vm_event.is_dbg] at this
  unfold status_inv
  rw [iter_status, hlog]
  cases hs : iter_signal env c with
  | VM_NONE =>
    refine ⟨h01, ?_⟩
    rw [hiff]
    simp [hnot]
  | VM_HALT =>
    refine ⟨h01, ?_⟩
    rw [hiff]
    simp [hnot]
  | VM_OTHER code =>
    refine ⟨Or.inr rfl, ?_⟩
    simp only [ne_eq, one_ne_zero, not_false_eq_true, true_iff]
    exact ⟨selected_handler (vm_pre_hook env (fetch_pc c) (vm_fetch c)).v.ir, code,
      by simp⟩

theorem status_inv_iter_n (env : vm_env ω δ) (c : exec_state ω δ) (h : status_inv c) :
    ∀ n, status_inv (iter_n env n c) := by
  intro n
  induction n with
  | zero => exact h
  | succ n ih =>
    rw [iter_n_succ]
    exact status_inv_iter env _ ih

/-! ## Engine: the claims -/

/-- C6: with debugging disabled and handlers that write neither `running` nor
`debugger_enabled`, `vm_execute` terminates exactly at the first instruction whose
handler signals `VM_HALT`.  If that is instruction number `n` (counted from 0), `running`
is set before each of the instructions `0 .. n` (so each earlier one is followed by
another fetch), it is clear after instruction `n`, no bound of at most `n` iterations
lets the loop return, every larger bound returns the state reached after instruction `n`,
whose record holds exactly `n + 1` fetches and `n + 1` dispatches and ends with the
dispatch that signalled `VM_HALT`.  If no handler ever signals `VM_HALT`, the loop
returns for no bound at all. -/
theorem C6_halt_terminates (env : vm_env ω δ) (v : vm_state) (w : ω) (d : δ)
    (hdis : v.debugger_enabled = 0)
    (hh_en : ∀ h w s, (env.handler h w s).v.debugger_enabled = s.debugger_enabled)
    (hh_run : ∀ h w s, (env.handler h w s).v.running = s.running) :
    (∀ n, (∀ j, j < n →
          iter_signal env (iter_n env j (vm_execute_start env v w d)) ≠ .VM_HALT) →
        iter_signal env (iter_n env n (vm_execute_start env v w d)) = .VM_HALT →
        (∀ j, j ≤ n → (iter_n env j (vm_execute_start env v w d)).v.running ≠ 0) ∧
        (iter_n env (n + 1) (vm_execute_start env v w d)).v.running = 0 ∧
        (∀ fuel, fuel ≤ n → vm_execute env fuel v w d = none) ∧
        (∀ fuel, n < fuel →
          vm_execute env fuel v w d
            = some (iter_n env (n + 1) (vm_execute_start env v w d))) ∧
        ((iter_n env (n + 1) (vm_execute_start env v w d)).log.filter
            vm_event.is_fetch).length = n + 1 ∧
        ((iter_n env (n + 1) (vm_execute_start env v w d)).log.filter
            vm_event.is_dispatch).length = n + 1 ∧
        ∃ h, (iter_n env (n + 1) (vm_execute_start env v w d)).log.getLast?
            = some (.dispatch h .VM_HALT)) ∧
    ((∀ j, iter_signal env (iter_n env j (vm_execute_start env v w d)) ≠ .VM_HALT) →
      ∀ fuel, vm_execute env fuel v w d = none) := by
  have hstart := vm_execute_start_disabled env v w d hdis
  have hdis0 : (vm_execute_start env v w d).v.debugger_enabled = 0 := by
    rw [hstart]; exact hdis
  have hrun0 : (vm_execute_start env v w d).v.running ≠ 0 := by
    rw [hstart]; simp
  have hlog0 : (vm_execute_start env v w d).log = [] := by rw [hstart]
  constructor
  · intro n hbefore hhalt
    have hrun : ∀ j, j ≤ n → (iter_n env j (vm_execute_start env v w d)).v.running ≠ 0 :=
      fun j hj => iter_n_disabled_running env hh_en hh_run _ hdis0 hrun0 j
        (fun i hi => hbefore i (by omega))
    have hstop : (iter_n env (n + 1) (vm_execute_start env v w d)).v.running = 0 := by
      rw [iter_n_succ,
        iter_disabled_running env hh_run _ (iter_n_disabled_enabled env hh_en _ hdis0 n),
        hhalt]
    have hcount := iter_n_disabled_counts env hh_en _ hdis0 (n + 1)
    rw [hlog0] at hcount
    refine ⟨hrun, hstop, ?_, ?_, by simpa using hcount.1, by simpa using hcount.2, ?_⟩
    · intro fuel hfuel
      unfold vm_execute
      have h := vm_execute_loop_iter_n env fuel 0 (vm_execute_start env v w d)
        (fun j hj => hrun j (by omega))
      rw [Nat.add_zero] at h
      rw [h]
      simp [vm_execute_loop, hrun fuel hfuel]
    · intro fuel hfuel
      unfold vm_execute
      have h := vm_execute_loop_iter_n env (n + 1) (fuel - (n + 1))
        (vm_execute_start env v w d) (fun j hj => hrun j (by omega))
      rw [show n + 1 + (fuel - (n + 1)) = fuel by omega] at h
      rw [h]
      exact vm_execute_loop_done env _ _ hstop
    · refine ⟨selected_handler ((iter_n env n (vm_execute_start env v w d)).v.mem
        (fetch_pc (iter_n env n (vm_execute_start env v w d)))), ?_⟩
      rw [iter_n_succ,
        iter_disabled_log env _ (iter_n_disabled_enabled env hh_en _ hdis0 n), hhalt]
      simp [List.getLast?_append]
  · intro hnever fuel
    unfold vm_execute
    apply vm_execute_loop_none
    intro j
    exact iter_n_disabled_running env hh_en hh_run _ hdis0 hrun0 j (fun i _ => hnever i)

/-- C6, on the example program (`ADD`, `RES`, halt trap at `0x3000`): the third handler is
the first to signal `VM_HALT`; with a bound of two iterations the loop has not returned,
with a bound of three it returns the state after the third iteration, `running` clear. -/
theorem C6_halt_terminates_witness :
    vm_execute demo_env 2 demo_state () () = none ∧
    vm_execute demo_env 3 demo_state () ()
      = some (iter_n demo_env 3 (vm_execute_start demo_env demo_state () ())) ∧
    (iter_n demo_env 3 (vm_execute_start demo_env demo_state () ())).v.running = 0 := by
  have h := (C6_halt_terminates demo_env demo_state () () rfl
    (by intro h w s; cases h <;> rfl) (by intro h w s; cases h <;> rfl)).1 2
    (by intro j hj; interval_cases j <;> decide) (by decide)
  exact ⟨h.2.2.1 2 (le_refl _), h.2.2.2.1 3 (by decide), h.2.1⟩

/-- C7: when a run of `vm_execute` returns, its status is 0 or 1, and it is non-zero if
and only if some dispatched handler returned a signal other than `VM_NONE` and
`VM_HALT`; in particular a run whose handlers all returned `VM_NONE` or `VM_HALT` returns
0.  Such a signal does not stop the loop: at the end of that iteration `running` is 1,
so the loop goes on to the next iteration, which begins with a fetch. -/
theorem C7_status_reflects_abnormal (env : vm_env ω δ) (fuel : Nat) (v : vm_state) (w : ω)
    (d : δ) (cf : exec_state ω δ) (hterm : vm_execute env fuel v w d = some cf) :
    (cf.status = 0 ∨ cf.status = 1) ∧
    (cf.status ≠ 0 ↔ ∃ h code, vm_event.dispatch h (.VM_OTHER code) ∈ cf.log) ∧
    ((∀ h sig, vm_event.dispatch h sig ∈ cf.log → sig = .VM_NONE ∨ sig = .VM_HALT) →
      cf.status = 0) ∧
    (∀ (c : exec_state ω δ) (code : Nat), iter_signal env c = .VM_OTHER code →
      (vm_execute_iter env c).v.running = 1 ∧
      (∀ k, vm_execute_loop env (k + 1) (vm_execute_iter env c)
          = vm_execute_loop env k (vm_execute_iter env (vm_execute_iter env c))) ∧
      ∃ rest, (vm_execute_iter env (vm_execute_iter env c)).log
          = (vm_execute_iter env c).log
            ++ .fetch (fetch_pc (vm_execute_iter env c))
                ((vm_execute_iter env c).v.mem (fetch_pc (vm_execute_iter env c))) :: rest) := by
  obtain ⟨n, _, hcf, _, _⟩ := vm_execute_loop_some env fuel _ cf hterm
  have hinv : status_inv cf := by
    rw [hcf]
    exact status_inv_iter_n env _ (status_inv_start env v w d) n
  refine ⟨hinv.1, hinv.2, ?_, ?_⟩
  · intro hall
    by_contra hne
    obtain ⟨h, code, hmem⟩ := hinv.2.mp hne
    rcases hall h _ hmem with h1 | h1 <;> cases h1
  · intro c code hsig
    have hrun : (vm_execute_iter env c).v.running = 1 := by
      rw [iter_running, hsig]
    refine ⟨hrun, ?_, ?_⟩
    · intro k
      exact vm_execute_loop_step env k _ (by rw [hrun]; decide)
    · obtain ⟨dbgs, _, _, hlog⟩ := iter_log_events env (vm_execute_iter env c)
      exact ⟨_, by rw [hlog, List.append_assoc]; rfl⟩

/-- C7, on the example program: its second word is a reserved opcode, the run goes on to
the halt trap and returns status 1. -/
theorem C7_status_reflects_abnormal_witness :
    (iter_n demo_env 3 (vm_execute_start demo_env demo_state () ())).status ≠ 0 ∧
    ∃ h code, vm_event.dispatch h (.VM_OTHER code)
      ∈ (iter_n demo_env 3 (vm_execute_start demo_env demo_state () ())).log := by
  have h := C7_status_reflects_abnormal demo_env 3 demo_state () ()
    (iter_n demo_env 3 (vm_execute_start demo_env demo_state () ())) rfl
  exact ⟨by decide, h.2.1.mp (by decide)⟩

theorem vm_pre_hook_breakpoint (env : vm_env ω δ) (pc : Nat) (c : exec_state ω δ)
    (hen : c.v.debugger_enabled ≠ 0) (hbp : check_flag c.v.mem_conds pc = true) :
    vm_pre_hook env pc c = call_dbg env c (some (breakpoint_message pc)) := by
  simp [vm_pre_hook, hen, hbp]

theorem vm_execute_start_enabled (env : vm_env ω δ) (v : vm_state) (w : ω) (d : δ)
    (hen : v.debugger_enabled ≠ 0) :
    vm_execute_start env v w d
      = call_dbg env
          { v := { v with reg := Function.update v.reg R_PC PC_START, running := 1 },
            world := w, session := d, status := 0, log := [] }
          (some usage_message) := by
  simp [vm_execute_start, hen]

/-- C8, amended: in an iteration of `vm_execute` with debugging enabled whose fetch
address `A` (the program counter as read at the fetch, before it is advanced) carries
the execution-breakpoint flag, the debugger entry point is invoked exactly once between
the fetch at `A` and the dispatch of the instruction, with the breakpoint message for
`A`; the handler then runs with the program counter advanced to `A + 1` (modulo
`2 ^ 16`).  This holds for every iteration, the first one at the start address included;
there it comes after the call made before the loop with the usage message, so that the
record before the first dispatch is the initial call, the fetch, and the breakpoint
call. -/
theorem C8_breakpoint_entry (env : vm_env ω δ) (c : exec_state ω δ)
    (hen : c.v.debugger_enabled ≠ 0)
    (hbp : check_flag c.v.mem_conds (fetch_pc c) = true) :
    fetch_pc c = c.v.reg R_PC % 2 ^ 16 ∧
    vm_pre_hook env (fetch_pc c) (vm_fetch c)
      = call_dbg env (vm_fetch c) (some (breakpoint_message (fetch_pc c))) ∧
    (vm_execute_iter env c).log
      = c.log ++ [.fetch (fetch_pc c) (c.v.mem (fetch_pc c)),
          .dbg_run (some (breakpoint_message (fetch_pc c))),
          .dispatch (selected_handler (vm_pre_hook env (fetch_pc c) (vm_fetch c)).v.ir)
            (iter_signal env c)] ∧
    ((vm_execute_iter env c).log.filter vm_event.is_dbg).length
      = (c.log.filter vm_event.is_dbg).length + 1 ∧
    (vm_advance (fetch_pc c) (vm_pre_hook env (fetch_pc c) (vm_fetch c))).v.reg R_PC
      = (fetch_pc c + 1) % 2 ^ 16 ∧
    (∀ (v : vm_state) (w : ω) (d : δ), v.debugger_enabled ≠ 0 →
      c = vm_execute_start env v w d →
      (vm_execute_iter env c).log
        = [.dbg_run (some usage_message),
            .fetch (fetch_pc c) (c.v.mem (fetch_pc c)),
            .dbg_run (some (breakpoint_message (fetch_pc c))),
            .dispatch (selected_handler (vm_pre_hook env (fetch_pc c) (vm_fetch c)).v.ir)
              (iter_signal env c)]) := by
  have hpre := vm_pre_hook_breakpoint env (fetch_pc c) (vm_fetch c)
    (by rw [vm_fetch_v]; exact hen) (by rw [vm_fetch_v]; exact hbp)
  have hlog : (vm_execute_iter env c).log
      = c.log ++ [.fetch (fetch_pc c) (c.v.mem (fetch_pc c)),
          .dbg_run (some (breakpoint_message (fetch_pc c))),
          .dispatch (selected_handler (vm_pre_hook env (fetch_pc c) (vm_fetch c)).v.ir)
            (iter_signal env c)] := by
    rw [iter_log, vm_pre_hook_log,
      if_pos ⟨by rw [vm_fetch_v]; exact hen, by rw [vm_fetch_v]; exact hbp⟩, vm_fetch_log]
    simp
  refine ⟨rfl, hpre, hlog, ?_, ?_, ?_⟩
  · rw [hlog]
    simp [List.filter, vm_event.is_dbg]
  · simp [vm_advance, vm_reg_write]
  · intro v w d hv hc
    rw [hlog]
    have : c.log = [.dbg_run (some usage_message)] := by
      rw [hc, vm_execute_start_enabled env v w d hv]
      rfl
    rw [this]
    rfl

/-- C8, as stated, fails at the start address: in the example program with debugging on
and a breakpoint on `0x3000`, the program counter is already `0x3000` when the debugger
is entered for the first time, and before the instruction at `0x3000` is dispatched the
debugger entry point has been invoked twice, first with the usage message and then with
the breakpoint message. -/
theorem C8_start_address_entered_twice :
    fetch_pc (vm_execute_start demo_env demo_bp_state () ()) = 0x3000 ∧
    ((vm_execute_iter demo_env (vm_execute_start demo_env demo_bp_state () ())).log.takeWhile
        (fun e => !e.is_dispatch)).filter vm_event.is_dbg
      = [.dbg_run (some usage_message), .dbg_run (some (breakpoint_message 0x3000))] ∧
    (((vm_execute_iter demo_env (vm_execute_start demo_env demo_bp_state () ())).log.takeWhile
        (fun e => !e.is_dispatch)).filter vm_event.is_dbg).length = 2 := by
  refine ⟨by decide, by rfl, by rfl⟩

/-- C8 amended, on the example program with a breakpoint on the start address `0x3000`:
the record after the first iteration is the initial call, the fetch at `0x3000`, one
breakpoint call whose message names `0x3000`, and the dispatch of the `ADD` handler. -/
theorem C8_breakpoint_entry_witness :
    (vm_execute_iter demo_env (vm_execute_start demo_env demo_bp_state () ())).log
      = [.dbg_run (some usage_message), .fetch 0x3000 0x1021,
          .dbg_run (some "Debugger: Hit breakpoint at 0x3000\n"),
          .dispatch .vm_add .VM_NONE] :=
  (C8_breakpoint_entry demo_env (vm_execute_start demo_env demo_bp_state () ())
    (by decide) (by decide)).2.2.2.2.2 demo_bp_state () () (by decide) rfl

/-! ### The debugger hooks and the instruction semantics -/

theorem arch_eq_refl (s : vm_state) : arch_eq s s := ⟨rfl, rfl, rfl, rfl⟩

theorem arch_eq_symm {s t : vm_state} (h : arch_eq s t) : arch_eq t s :=
  ⟨h.1.symm, h.2.1.symm, h.2.2.1.symm, h.2.2.2.symm⟩

theorem arch_eq_trans {s t u : vm_state} (h : arch_eq s t) (k : arch_eq t u) : arch_eq s u :=
  ⟨h.1.trans k.1, h.2.1.trans k.2.1, h.2.2.1.trans k.2.2.1, h.2.2.2.trans k.2.2.2⟩

theorem sim_refl (c : exec_state ω δ) : sim c c := ⟨arch_eq_refl _, rfl, rfl, rfl, rfl⟩

theorem sim_symm {c c1 : exec_state ω δ} (h : sim c c1) : sim c1 c :=
  ⟨arch_eq_symm h.1, h.2.1.symm, h.2.2.1.symm, h.2.2.2.1.symm, h.2.2.2.2.symm⟩

theorem sim_trans {c c1 c2 : exec_state ω δ} (h : sim c c1) (k : sim c1 c2) : sim c c2 :=
  ⟨arch_eq_trans h.1 k.1, h.2.1.trans k.2.1, h.2.2.1.trans k.2.2.1,
    h.2.2.2.1.trans k.2.2.2.1, h.2.2.2.2.trans k.2.2.2.2⟩

theorem sim_fetch_pc {c c1 : exec_state ω δ} (h : sim c c1) : fetch_pc c = fetch_pc c1 := by
  simp [fetch_pc, vm_reg_read, h.1.1]

theorem sim_fetch {c c1 : exec_state ω δ} (h : sim c c1) : sim (vm_fetch c) (vm_fetch c1) := by
  obtain ⟨⟨hr, hm, _, hrun⟩, hw, hs, hf, hd⟩ := h
  refine ⟨⟨hr, hm, ?_, hrun⟩, hw, hs, ?_, ?_⟩
  · simp [vm_fetch, fetch_pc, vm_reg_read, hr, hm]
  · simp [vm_fetch, fetch_pc, vm_reg_read, hr, hm, List.filter_append, hf]
  · simp [vm_fetch, List.filter_append, hd, List.filter, vm_event.is_dispatch]

theorem sim_call_dbg (env : vm_env ω δ)
    (hdbg : ∀ d w s msg, (env.vm_dbg_run d w s msg).world = w ∧
      arch_eq (env.vm_dbg_run d w s msg).v s)
    (c : exec_state ω δ) (msg : Option String) : sim (call_dbg env c msg) c := by
  obtain ⟨hw, ha⟩ := hdbg c.session c.world c.v msg
  refine ⟨ha, hw, rfl, ?_, ?_⟩ <;>
    simp [call_dbg, List.filter_append, List.filter, vm_event.is_fetch, vm_event.is_dispatch]

theorem sim_pre_hook (env : vm_env ω δ)
    (hdbg : ∀ d w s msg, (env.vm_dbg_run d w s msg).world = w ∧
      arch_eq (env.vm_dbg_run d w s msg).v s)
    (pc : Nat) (c : exec_state ω δ) : sim (vm_pre_hook env pc c) c := by
  unfold vm_pre_hook
  split
  · exact sim_call_dbg env hdbg c _
  · split
    · have h := sim_call_dbg env hdbg c none
      exact ⟨h.1, h.2.1, h.2.2.1, h.2.2.2.1, h.2.2.2.2⟩
    · exact sim_refl c

theorem sim_advance (pc : Nat) {c c1 : exec_state ω δ} (h : sim c c1) :
    sim (vm_advance pc c) (vm_advance pc c1) := by
  obtain ⟨⟨hr, hm, hi, hrun⟩, hw, hs, hf, hd⟩ := h
  exact ⟨⟨by simp [vm_advance, vm_reg_write, hr], hm, hi, hrun⟩, hw, hs, hf, hd⟩

theorem sim_post_hook (c : exec_state ω δ) : sim (vm_post_hook c) c := by
  unfold vm_post_hook
  split
  · exact ⟨arch_eq_refl _, rfl, rfl, rfl, rfl⟩
  · exact sim_refl c

theorem sim_dispatch (env : vm_env ω δ)
    (hhand : ∀ h w s t, arch_eq s t →
      (env.handler h w s).sig = (env.handler h w t).sig ∧
      (env.handler h w s).world = (env.handler h w t).world ∧
      arch_eq (env.handler h w s).v (env.handler h w t).v)
    {c c1 : exec_state ω δ} (h : sim c c1) : sim (vm_dispatch env c) (vm_dispatch env c1) := by
  obtain ⟨ha, hw, hs, hf, hd⟩ := h
  have hir : c.v.ir = c1.v.ir := ha.2.2.1
  obtain ⟨hsig, hworld, hv⟩ := hhand (selected_handler c.v.ir) c.world c.v c1.v ha
  rw [hw, hir] at hsig hworld hv
  have hsig1 : dispatch_signal env c = dispatch_signal env c1 := by
    simp only [dispatch_signal, hw, hir]
    exact hsig
  have ⟨hr, hm, hi, _⟩ := hv
  cases hc : dispatch_signal env c1 with
  | VM_NONE =>
    rw [vm_dispatch_none env c (hsig1.trans hc), vm_dispatch_none env c1 hc]
    refine ⟨?_, ?_, hs, ?_, ?_⟩
    · simpa [hw, hir] using hv
    · simpa [hw, hir] using hworld
    · simp [List.filter_append, hf, List.filter, vm_event.is_fetch]
    · simp [List.filter_append, hd, hir]
  | VM_HALT =>
    rw [vm_dispatch_halt env c (hsig1.trans hc), vm_dispatch_halt env c1 hc]
    refine ⟨⟨?_, ?_, ?_, rfl⟩, ?_, hs, ?_, ?_⟩
    · simpa [hw, hir] using hr
    · simpa [hw, hir] using hm
    · simpa [hw, hir] using hi
    · simpa [hw, hir] using hworld
    · simp [List.filter_append, hf, List.filter, vm_event.is_fetch]
    · simp [List.filter_append, hd, hir]
  | VM_OTHER code =>
    rw [vm_dispatch_other env c code (hsig1.trans hc), vm_dispatch_other env c1 code hc]
    refine ⟨⟨?_, ?_, ?_, rfl⟩, ?_, rfl, ?_, ?_⟩
    · simpa [hw, hir] using hr
    · simpa [hw, hir] using hm
    · simpa [hw, hir] using hi
    · simpa [hw, hir] using hworld
    · simp [List.filter_append, hf, List.filter, vm_event.is_fetch]
    · simp [List.filter_append, hd, hir]

/-- One iteration keeps two executions in step, whatever their debugger fields hold. -/
theorem sim_iter (env : vm_env ω δ)
    (hdbg : ∀ d w s msg, (env.vm_dbg_run d w s msg).world = w ∧
      arch_eq (env.vm_dbg_run d w s msg).v s)
    (hhand : ∀ h w s t, arch_eq s t →
      (env.handler h w s).sig = (env.handler h w t).sig ∧
      (env.handler h w s).world = (env.handler h w t).world ∧
      arch_eq (env.handler h w s).v (env.handler h w t).v)
    {c c1 : exec_state ω δ} (h : sim c c1) :
    sim (vm_execute_iter env c) (vm_execute_iter env c1) := by
  have hpc := sim_fetch_pc h
  have h1 : sim (vm_pre_hook env (fetch_pc c) (vm_fetch c))
      (vm_pre_hook env (fetch_pc c) (vm_fetch c1)) :=
    sim_trans (sim_pre_hook env hdbg _ _)
      (sim_trans (sim_fetch h) (sim_symm (sim_pre_hook env hdbg _ _)))
  have h2 := sim_dispatch env hhand (sim_advance (fetch_pc c) h1)
  simp only [vm_execute_iter, vm_retire]
  rw [← hpc]
  exact sim_trans (sim_post_hook _) (sim_trans h2 (sim_symm (sim_post_hook _)))

theorem sim_loop (env : vm_env ω δ)
    (hdbg : ∀ d w s msg, (env.vm_dbg_run d w s msg).world = w ∧
      arch_eq (env.vm_dbg_run d w s msg).v s)
    (hhand : ∀ h w s t, arch_eq s t →
      (env.handler h w s).sig = (env.handler h w t).sig ∧
      (env.handler h w s).world = (env.handler h w t).world ∧
      arch_eq (env.handler h w s).v (env.handler h w t).v) :
    ∀ (fuel : Nat) (c c1 cf : exec_state ω δ), sim c c1 →
      vm_execute_loop env fuel c = some cf →
      ∃ cf1, vm_execute_loop env fuel c1 = some cf1 ∧ sim cf cf1 := by
  intro fuel
  induction fuel with
  | zero =>
    intro c c1 cf h hc
    by_cases h0 : c.v.running = 0
    · rw [vm_execute_loop_done env 0 c h0] at hc
      cases hc
      exact ⟨c1, vm_execute_loop_done env 0 c1 (by rw [← h.1.2.2.2]; exact h0), h⟩
    · simp [vm_execute_loop, h0] at hc
  | succ fuel ih =>
    intro c c1 cf h hc
    by_cases h0 : c.v.running = 0
    · rw [vm_execute_loop_done env _ c h0] at hc
      cases hc
      exact ⟨c1, vm_execute_loop_done env _ c1 (by rw [← h.1.2.2.2]; exact h0), h⟩
    · rw [vm_execute_loop_step env fuel c h0] at hc
      rw [vm_execute_loop_step env fuel c1 (by rw [← h.1.2.2.2]; exact h0)]
      exact ih _ _ cf (sim_iter env hdbg hhand h) hc

theorem sim_start (env : vm_env ω δ)
    (hdbg : ∀ d w s msg, (env.vm_dbg_run d w s msg).world = w ∧
      arch_eq (env.vm_dbg_run d w s msg).v s)
    (v : vm_state) (w : ω) (d : δ) :
    sim (vm_execute_start env v w d)
      (vm_execute_start env { v with debugger_enabled := 0 } w d) := by
  rw [vm_execute_start_disabled env { v with debugger_enabled := 0 } w d rfl]
  by_cases hen : v.debugger_enabled = 0
  · rw [vm_execute_start_disabled env v w d hen]
    exact ⟨⟨rfl, rfl, rfl, rfl⟩, rfl, rfl, rfl, rfl⟩
  · rw [vm_execute_start_enabled env v w d hen]
    exact sim_trans (sim_call_dbg env hdbg _ _) ⟨⟨rfl, rfl, rfl, rfl⟩, rfl, rfl, rfl, rfl⟩

/-- C9: the debugger hooks do not alter instruction semantics.  Take handlers that neither
read nor write the debugger fields (on states that agree on registers, memory, `ir` and
`running` they return the same signal and leave states that agree again) and a debugger
session that changes nothing of the registers, memory, `ir`, `running` and the outside
world (it may change `debugger_steps` and the breakpoint flags).  Then whenever the run
from a state `v` returns (in particular with debugging enabled), the run from the same
state with debugging disabled returns too, within the same bound, with the same
registers (pc and cond among them), memory, world and status, and the same fetches and
dispatches in the same order. -/
theorem C9_debugger_transparent (env : vm_env ω δ)
    (hdbg : ∀ d w s msg, (env.vm_dbg_run d w s msg).world = w ∧
      arch_eq (env.vm_dbg_run d w s msg).v s)
    (hhand : ∀ h w s t, arch_eq s t →
      (env.handler h w s).sig = (env.handler h w t).sig ∧
      (env.handler h w s).world = (env.handler h w t).world ∧
      arch_eq (env.handler h w s).v (env.handler h w t).v)
    (v : vm_state) (w : ω) (d : δ) (fuel : Nat) (cf : exec_state ω δ)
    (hterm : vm_execute env fuel v w d = some cf) :
    ∃ cf0, vm_execute env fuel { v with debugger_enabled := 0 } w d = some cf0 ∧
      cf0.v.reg = cf.v.reg ∧ cf0.v.mem = cf.v.mem ∧ cf0.v.running = cf.v.running ∧
      cf0.world = cf.world ∧ cf0.status = cf.status ∧
      cf0.log.filter vm_event.is_fetch = cf.log.filter vm_event.is_fetch ∧
      cf0.log.filter vm_event.is_dispatch = cf.log.filter vm_event.is_dispatch := by
  obtain ⟨cf0, h0, hsim⟩ :=
    sim_loop env hdbg hhand fuel _ _ cf (sim_start env hdbg v w d) hterm
  obtain ⟨⟨hr, hm, _, hrun⟩, hw, hs, hf, hd⟩ := hsim
  exact ⟨cf0, h0, hr.symm, hm.symm, hrun.symm, hw.symm, hs.symm, hf.symm, hd.symm⟩

/-- C9, on the example program with the debugger on and a breakpoint on `0x3000`: that
run returns after three iterations, and so does the run with the debugger off, with the
same registers, memory, status and dispatches. -/
theorem C9_debugger_transparent_witness :
    ∃ cf0, vm_execute demo_env 3 { demo_bp_state with debugger_enabled := 0 } () ()
        = some cf0 ∧
      cf0.v.reg = (iter_n demo_env 3 (vm_execute_start demo_env demo_bp_state () ())).v.reg ∧
      cf0.v.mem = (iter_n demo_env 3 (vm_execute_start demo_env demo_bp_state () ())).v.mem ∧
      cf0.status = 1 ∧
      cf0.log.filter vm_event.is_dispatch
        = [.dispatch .vm_add .VM_NONE, .dispatch .vm_res (.VM_OTHER 2),
            .dispatch .vm_trap .VM_HALT] := by
  obtain ⟨cf0, h0, hr, hm, _, _, hs, _, hd⟩ :=
    C9_debugger_transparent demo_env
      (by intro d w s msg; exact ⟨rfl, rfl, rfl, rfl, rfl⟩)
      (by
        intro h w s t hst
        obtain ⟨hr, hm, hi, hn⟩ := hst
        cases h <;> refine ⟨rfl, rfl, ?_, hm, hi, hn⟩ <;>
          first
          | exact hr
          | (show Function.update s.reg 0 _ = Function.update t.reg 0 _; rw [hr]))
      demo_bp_state () () 3
      (iter_n demo_env 3 (vm_execute_start demo_env demo_bp_state () ())) rfl
  exact ⟨cf0, h0, hr, hm, hs, hd⟩

/-! ### The step budget -/

theorem vm_post_hook_steps (c : exec_state ω δ) :
    (vm_post_hook c).v.debugger_steps
      = if c.v.debugger_enabled ≠ 0 ∧ c.v.debugger_steps ≠ -1 then c.v.debugger_steps - 1
        else c.v.debugger_steps := by
  unfold vm_post_hook
  split <;> rfl

/-- What lines 106-127 do to the debugger fields, the run flag and the record, for
handlers that write none of `debugger_enabled`, `debugger_steps`, `running`. -/
theorem vm_retire_facts (env : vm_env ω δ)
    (hh_en : ∀ h w s, (env.handler h w s).v.debugger_enabled = s.debugger_enabled)
    (hh_run : ∀ h w s, (env.handler h w s).v.running = s.running)
    (hh_steps : ∀ h w s, (env.handler h w s).v.debugger_steps = s.debugger_steps)
    (pc : Nat) (p : exec_state ω δ) :
    (vm_retire env pc p).v.debugger_enabled = p.v.debugger_enabled ∧
    (vm_retire env pc p).v.debugger_steps
      = (if p.v.debugger_enabled ≠ 0 ∧ p.v.debugger_steps ≠ -1 then p.v.debugger_steps - 1
        else p.v.debugger_steps) ∧
    (vm_retire env pc p).v.running
      = (match dispatch_signal env (vm_advance pc p) with
        | .VM_NONE => p.v.running
        | .VM_HALT => 0
        | .VM_OTHER _ => 1) ∧
    (vm_retire env pc p).log
      = p.log ++ [.dispatch (selected_handler p.v.ir) (dispatch_signal env (vm_advance pc p))] := by
  have he : (vm_dispatch env (vm_advance pc p)).v.debugger_enabled = p.v.debugger_enabled := by
    rw [vm_dispatch_enabled, hh_en]; rfl
  have hs : (vm_dispatch env (vm_advance pc p)).v.debugger_steps = p.v.debugger_steps := by
    rw [vm_dispatch_steps, hh_steps]; rfl
  refine ⟨?_, ?_, ?_, ?_⟩
  · rw [vm_retire, vm_post_hook_enabled, he]
  · rw [vm_retire, vm_post_hook_steps, he, hs]
  · rw [vm_retire, vm_post_hook_running, vm_dispatch_running, hh_run]
    rfl
  · rw [vm_retire, vm_post_hook_log, vm_dispatch_log]
    rfl

theorem vm_pre_hook_idle (env : vm_env ω δ) (pc : Nat) (c : exec_state ω δ)
    (hnobp : check_flag c.v.mem_conds pc = false) (hsteps : c.v.debugger_steps ≠ 0) :
    vm_pre_hook env pc c = c := by
  simp [vm_pre_hook, hnobp, hsteps]

/-- An iteration with the debugger on, no breakpoint on the fetch address and a positive
step budget: the debugger is not called and the budget goes down by one. -/
theorem iter_stepping (env : vm_env ω δ)
    (hh_en : ∀ h w s, (env.handler h w s).v.debugger_enabled = s.debugger_enabled)
    (hh_run : ∀ h w s, (env.handler h w s).v.running = s.running)
    (hh_steps : ∀ h w s, (env.handler h w s).v.debugger_steps = s.debugger_steps)
    (c : exec_state ω δ) (hen : c.v.debugger_enabled ≠ 0)
    (hnobp : check_flag c.v.mem_conds (fetch_pc c) = false)
    (hsteps : 0 < c.v.debugger_steps) :
    (vm_execute_iter env c).v.debugger_enabled = c.v.debugger_enabled ∧
    (vm_execute_iter env c).v.debugger_steps = c.v.debugger_steps - 1 ∧
    (vm_execute_iter env c).v.running
      = (match iter_signal env c with
        | .VM_NONE => c.v.running
        | .VM_HALT => 0
        | .VM_OTHER _ => 1) ∧
    (vm_execute_iter env c).log
      = c.log ++ [.fetch (fetch_pc c) (c.v.mem (fetch_pc c)),
          .dispatch (selected_handler (c.v.mem (fetch_pc c))) (iter_signal env c)] := by
  have hpre : vm_pre_hook env (fetch_pc c) (vm_fetch c) = vm_fetch c :=
    vm_pre_hook_idle env _ _ (by rw [vm_fetch_v]; exact hnobp)
      (by rw [vm_fetch_v]; exact ne_of_gt hsteps)
  obtain ⟨h1, h2, h3, h4⟩ := vm_retire_facts env hh_en hh_run hh_steps (fetch_pc c) (vm_fetch c)
  have hiter : vm_execute_iter env c = vm_retire env (fetch_pc c) (vm_fetch c) := by
    simp only [vm_execute_iter, hpre]
  have hsig : iter_signal env c = dispatch_signal env (vm_advance (fetch_pc c) (vm_fetch c)) := by
    simp only [iter_signal, hpre]
  rw [hiter, hsig]
  refine ⟨h1, ?_, h3, ?_⟩
  · rw [h2, if_pos]
    · rfl
    · exact ⟨by rw [vm_fetch_v]; exact hen, by rw [vm_fetch_v]; show c.v.debugger_steps ≠ -1; omega⟩
  · rw [h4, vm_fetch_log, vm_fetch_v]
    simp

/-- From a loop head with debugging on, `running` set and a step budget `N`, while no
breakpoint is hit and no handler signals `VM_HALT`: after `j ≤ N` iterations the
debugger is still on, `running` is still set and the budget is `N - j`. -/
theorem stepping_run (env : vm_env ω δ)
    (hh_en : ∀ h w s, (env.handler h w s).v.debugger_enabled = s.debugger_enabled)
    (hh_run : ∀ h w s, (env.handler h w s).v.running = s.running)
    (hh_steps : ∀ h w s, (env.handler h w s).v.debugger_steps = s.debugger_steps)
    (c : exec_state ω δ) (N : Nat)
    (hen : c.v.debugger_enabled ≠ 0) (hrun : c.v.running ≠ 0)
    (hN : c.v.debugger_steps = (N : Int))
    (hnobp : ∀ j, j < N →
      check_flag (iter_n env j c).v.mem_conds (fetch_pc (iter_n env j c)) = false)
    (hnohalt : ∀ j, j < N → iter_signal env (iter_n env j c) ≠ .VM_HALT) :
    ∀ j, j ≤ N →
      (iter_n env j c).v.debugger_enabled ≠ 0 ∧ (iter_n env j c).v.running ≠ 0 ∧
      (iter_n env j c).v.debugger_steps = (N : Int) - (j : Int) := by
  intro j
  induction j with
  | zero =>
    intro _
    exact ⟨hen, hrun, by simp [iter_n_zero, hN]⟩
  | succ j ih =>
    intro hj
    obtain ⟨h1, h2, h3⟩ := ih (by omega)
    obtain ⟨k1, k2, k3, _⟩ := iter_stepping env hh_en hh_run hh_steps (iter_n env j c) h1
      (hnobp j (by omega)) (by rw [h3]; omega)
    rw [iter_n_succ]
    refine ⟨by rw [k1]; exact h1, ?_, by rw [k2, h3]; push_cast; ring⟩
    rw [k3]
    cases hs : iter_signal env (iter_n env j c) with
    | VM_NONE => exact h2
    | VM_HALT => exact absurd hs (hnohalt j (by omega))
    | VM_OTHER code => simp

/-- An iteration with the debugger on, no breakpoint on the fetch address and the step
budget at zero: the debugger is called once, with no message, before the dispatch. -/
theorem iter_step_stop_log (env : vm_env ω δ) (c : exec_state ω δ)
    (hen : c.v.debugger_enabled ≠ 0)
    (hnobp : check_flag c.v.mem_conds (fetch_pc c) = false)
    (hsteps : c.v.debugger_steps = 0) :
    (vm_execute_iter env c).log
      = c.log ++ [.fetch (fetch_pc c) (c.v.mem (fetch_pc c)), .dbg_run none,
          .dispatch (selected_handler (vm_pre_hook env (fetch_pc c) (vm_fetch c)).v.ir)
            (iter_signal env c)] := by
  rw [iter_log, vm_pre_hook_log,
    if_neg (by rw [vm_fetch_v]; simp [hnobp]),
    if_pos ⟨by rw [vm_fetch_v]; exact hen, by rw [vm_fetch_v]; exact hsteps⟩, vm_fetch_log]
  simp

/-- From a loop head with debugging on, `running` set and a step budget `N`, while no
breakpoint is hit and no handler signals `VM_HALT`: the next `N` iterations dispatch
without a debugger call, the budget falling by one each time, and iteration `N + 1`
calls the debugger with no message before its dispatch. -/
theorem step_budget_from_head (env : vm_env ω δ)
    (hh_en : ∀ h w s, (env.handler h w s).v.debugger_enabled = s.debugger_enabled)
    (hh_run : ∀ h w s, (env.handler h w s).v.running = s.running)
    (hh_steps : ∀ h w s, (env.handler h w s).v.debugger_steps = s.debugger_steps)
    (c : exec_state ω δ) (N : Nat)
    (hen : c.v.debugger_enabled ≠ 0) (hrun : c.v.running ≠ 0)
    (hN : c.v.debugger_steps = (N : Int))
    (hnobp : ∀ j, j ≤ N →
      check_flag (iter_n env j c).v.mem_conds (fetch_pc (iter_n env j c)) = false)
    (hnohalt : ∀ j, j < N → iter_signal env (iter_n env j c) ≠ .VM_HALT) :
    (∀ j, j ≤ N → (iter_n env j c).v.running ≠ 0 ∧
      (iter_n env j c).v.debugger_steps = (N : Int) - (j : Int)) ∧
    (∀ j, j < N →
      (iter_n env (j + 1) c).log
        = (iter_n env j c).log
          ++ [.fetch (fetch_pc (iter_n env j c))
                ((iter_n env j c).v.mem (fetch_pc (iter_n env j c))),
              .dispatch (selected_handler
                ((iter_n env j c).v.mem (fetch_pc (iter_n env j c))))
                (iter_signal env (iter_n env j c))]) ∧
    (iter_n env (N + 1) c).log
      = (iter_n env N c).log
        ++ [.fetch (fetch_pc (iter_n env N c))
              ((iter_n env N c).v.mem (fetch_pc (iter_n env N c))),
            .dbg_run none,
            .dispatch (selected_handler
              (vm_pre_hook env (fetch_pc (iter_n env N c)) (vm_fetch (iter_n env N c))).v.ir)
              (iter_signal env (iter_n env N c))] := by
  have hP := stepping_run env hh_en hh_run hh_steps c N hen hrun hN
    (fun j hj => hnobp j (by omega)) hnohalt
  refine ⟨fun j hj => ⟨(hP j hj).2.1, (hP j hj).2.2⟩, ?_, ?_⟩
  · intro j hj
    obtain ⟨h1, _, h3⟩ := hP j (by omega)
    rw [iter_n_succ]
    exact (iter_stepping env hh_en hh_run hh_steps (iter_n env j c) h1
      (hnobp j (by omega)) (by rw [h3]; omega)).2.2.2
  · obtain ⟨h1, _, h3⟩ := hP N (le_refl _)
    rw [iter_n_succ]
    exact iter_step_stop_log env (iter_n env N c) h1 (hnobp N (le_refl _))
      (by rw [h3]; omega)

/-- C10: the step budget.  Handlers write none of `debugger_enabled`, `debugger_steps`,
`running`.
(a) From the initial entry: at a loop head with debugging on, `running` set and the
budget at `N`, if no breakpoint is hit and no handler signals `VM_HALT`, then `running`
stays set and the budget is `N - j` after `j ≤ N` iterations, each of the first `N`
iterations is a fetch and a dispatch with no debugger call, and iteration `N + 1` calls
the debugger with no message between its fetch and its dispatch.
(b) From a breakpoint entry: if the session called for the breakpoint returns with
debugging on, `running` set and the budget at `N > 0`, the breakpointed instruction is
dispatched as the first of the `N`, the budget is `N - j` after `j` iterations
(`1 ≤ j ≤ N`), the iterations after the first up to the `N`-th are a fetch and a
dispatch with no debugger call, and iteration `N + 1` calls the debugger with no message
between its fetch and its dispatch. -/
theorem C10_step_budget (env : vm_env ω δ)
    (hh_en : ∀ h w s, (env.handler h w s).v.debugger_enabled = s.debugger_enabled)
    (hh_run : ∀ h w s, (env.handler h w s).v.running = s.running)
    (hh_steps : ∀ h w s, (env.handler h w s).v.debugger_steps = s.debugger_steps) :
    (∀ (c : exec_state ω δ) (N : Nat),
      c.v.debugger_enabled ≠ 0 → c.v.running ≠ 0 → c.v.debugger_steps = (N : Int) →
      (∀ j, j ≤ N →
        check_flag (iter_n env j c).v.mem_conds (fetch_pc (iter_n env j c)) = false) →
      (∀ j, j < N → iter_signal env (iter_n env j c) ≠ .VM_HALT) →
      (∀ j, j ≤ N → (iter_n env j c).v.running ≠ 0 ∧
        (iter_n env j c).v.debugger_steps = (N : Int) - (j : Int)) ∧
      (∀ j, j < N →
        (iter_n env (j + 1) c).log
          = (iter_n env j c).log
            ++ [.fetch (fetch_pc (iter_n env j c))
                  ((iter_n env j c).v.mem (fetch_pc (iter_n env j c))),
                .dispatch (selected_handler
                  ((iter_n env j c).v.mem (fetch_pc (iter_n env j c))))
                  (iter_signal env (iter_n env j c))]) ∧
      (iter_n env (N + 1) c).log
        = (iter_n env N c).log
          ++ [.fetch (fetch_pc (iter_n env N c))
                ((iter_n env N c).v.mem (fetch_pc (iter_n env N c))),
              .dbg_run none,
              .dispatch (selected_handler
                (vm_pre_hook env (fetch_pc (iter_n env N c))
                  (vm_fetch (iter_n env N c))).v.ir)
                (iter_signal env (iter_n env N c))]) ∧
    (∀ (c : exec_state ω δ) (N : Nat), 0 < N →
      c.v.debugger_enabled ≠ 0 → check_flag c.v.mem_conds (fetch_pc c) = true →
      (env.vm_dbg_run c.session c.world (vm_fetch c).v
        (some (breakpoint_message (fetch_pc c)))).v.debugger_steps = (N : Int) →
      (env.vm_dbg_run c.session c.world (vm_fetch c).v
        (some (breakpoint_message (fetch_pc c)))).v.debugger_enabled ≠ 0 →
      (env.vm_dbg_run c.session c.world (vm_fetch c).v
        (some (breakpoint_message (fetch_pc c)))).v.running ≠ 0 →
      (∀ j, 1 ≤ j → j ≤ N →
        check_flag (iter_n env j c).v.mem_conds (fetch_pc (iter_n env j c)) = false) →
      (∀ j, j < N → iter_signal env (iter_n env j c) ≠ .VM_HALT) →
      (vm_execute_iter env c).log
        = c.log ++ [.fetch (fetch_pc c) (c.v.mem (fetch_pc c)),
            .dbg_run (some (breakpoint_message (fetch_pc c))),
            .dispatch (selected_handler (vm_pre_hook env (fetch_pc c) (vm_fetch c)).v.ir)
              (iter_signal env c)] ∧
      (∀ j, 1 ≤ j → j ≤ N → (iter_n env j c).v.running ≠ 0 ∧
        (iter_n env j c).v.debugger_steps = (N : Int) - (j : Int)) ∧
      (∀ j, 1 ≤ j → j < N →
        (iter_n env (j + 1) c).log
          = (iter_n env j c).log
            ++ [.fetch (fetch_pc (iter_n env j c))
                  ((iter_n env j c).v.mem (fetch_pc (iter_n env j c))),
                .dispatch (selected_handler
                  ((iter_n env j c).v.mem (fetch_pc (iter_n env j c))))
                  (iter_signal env (iter_n env j c))]) ∧
      (iter_n env (N + 1) c).log
        = (iter_n env N c).log
          ++ [.fetch (fetch_pc (iter_n env N c))
                ((iter_n env N c).v.mem (fetch_pc (iter_n env N c))),
              .dbg_run none,
              .dispatch (selected_handler
                (vm_pre_hook env (fetch_pc (iter_n env N c))
                  (vm_fetch (iter_n env N c))).v.ir)
                (iter_signal env (iter_n env N c))]) := by
  refine ⟨fun c N hen hrun hN hnobp hnohalt =>
    step_budget_from_head env hh_en hh_run hh_steps c N hen hrun hN hnobp hnohalt, ?_⟩
  intro c N hpos hen hbp hN hren hrrun hnobp hnohalt
  have hpre := vm_pre_hook_breakpoint env (fetch_pc c) (vm_fetch c)
    (by rw [vm_fetch_v]; exact hen) (by rw [vm_fetch_v]; exact hbp)
  have hlog0 : (vm_execute_iter env c).log
      = c.log ++ [.fetch (fetch_pc c) (c.v.mem (fetch_pc c)),
          .dbg_run (some (breakpoint_message (fetch_pc c))),
          .dispatch (selected_handler (vm_pre_hook env (fetch_pc c) (vm_fetch c)).v.ir)
            (iter_signal env c)] := by
    rw [iter_log, vm_pre_hook_log,
      if_pos ⟨by rw [vm_fetch_v]; exact hen, by rw [vm_fetch_v]; exact hbp⟩, vm_fetch_log]
    simp
  obtain ⟨k1, k2, k3, _⟩ := vm_retire_facts env hh_en hh_run hh_steps (fetch_pc c)
    (call_dbg env (vm_fetch c) (some (breakpoint_message (fetch_pc c))))
  have hiter : vm_execute_iter env c
      = vm_retire env (fetch_pc c)
          (call_dbg env (vm_fetch c) (some (breakpoint_message (fetch_pc c)))) := by
    simp only [vm_execute_iter, hpre]
  have hsig : iter_signal env c
      = dispatch_signal env (vm_advance (fetch_pc c)
          (call_dbg env (vm_fetch c) (some (breakpoint_message (fetch_pc c))))) := by
    simp only [iter_signal, hpre]
  have hv : (call_dbg env (vm_fetch c) (some (breakpoint_message (fetch_pc c)))).v
      = (env.vm_dbg_run c.session c.world (vm_fetch c).v
          (some (breakpoint_message (fetch_pc c)))).v := rfl
  rw [← hiter, hv] at k1 k2 k3
  rw [← hsig] at k3
  have e1 : (iter_n env 1 c).v.debugger_enabled ≠ 0 := by
    rw [iter_n_succ, iter_n_zero, k1]; exact hren
  have e2 : (iter_n env 1 c).v.running ≠ 0 := by
    rw [iter_n_succ, iter_n_zero, k3]
    cases hs : iter_signal env c with
    | VM_NONE => exact hrrun
    | VM_HALT => exact absurd hs (hnohalt 0 hpos)
    | VM_OTHER code => simp
  have e3 : (iter_n env 1 c).v.debugger_steps = ((N - 1 : Nat) : Int) := by
    rw [iter_n_succ, iter_n_zero, k2, if_pos ⟨hren, by rw [hN]; omega⟩, hN]
    omega
  have hshift : ∀ j, iter_n env j (iter_n env 1 c) = iter_n env (j + 1) c := by
    intro j
    rw [iter_n_succ_left]
    rfl
  obtain ⟨r1, r2, r3⟩ := step_budget_from_head env hh_en hh_run hh_steps (iter_n env 1 c)
    (N - 1) e1 e2 e3
    (by intro j hj; rw [hshift]; exact hnobp (j + 1) (by omega) (by omega))
    (by intro j hj; rw [hshift]; exact hnohalt (j + 1) (by omega))
  refine ⟨hlog0, ?_, ?_, ?_⟩
  · intro j h1 hj
    obtain ⟨i, rfl⟩ : ∃ i, j = i + 1 := ⟨j - 1, by omega⟩
    have h := r1 i (by omega)
    rw [hshift] at h
    exact ⟨h.1, by rw [h.2]; omega⟩
  · intro j h1 hj
    obtain ⟨i, rfl⟩ : ∃ i, j = i + 1 := ⟨j - 1, by omega⟩
    have h := r2 i (by omega)
    rw [hshift, hshift] at h
    exact h
  · have a1 : iter_n env (N - 1) (iter_n env 1 c) = iter_n env N c := by
      rw [hshift, show N - 1 + 1 = N by omega]
    have a2 : iter_n env (N - 1 + 1) (iter_n env 1 c) = iter_n env (N + 1) c := by
      rw [hshift, show N - 1 + 1 + 1 = N + 1 by omega]
    have h := r3
    rw [a2, a1] at h
    exact h

/-- C10, on the example program, whose debugger session returns with a budget of 2.
Without a breakpoint: after the initial call two instructions are dispatched, then the
debugger is called with no message before the third.  With a breakpoint on `0x3000`: after
the breakpoint call two instructions are dispatched (the breakpointed one first), then
the debugger is called with no message before the third. -/
theorem C10_step_budget_witness :
    (iter_n demo_env 3 (vm_execute_start demo_env demo_step_state () ())).log
      = [.dbg_run (some usage_message),
          .fetch 0x3000 0x1021, .dispatch .vm_add .VM_NONE,
          .fetch 0x3001 0xD000, .dispatch .vm_res (.VM_OTHER 2),
          .fetch 0x3002 0xF025, .dbg_run none, .dispatch .vm_trap .VM_HALT] ∧
    (iter_n demo_env 3 (vm_execute_start demo_env demo_bp_state () ())).log
      = [.dbg_run (some usage_message),
          .fetch 0x3000 0x1021, .dbg_run (some (breakpoint_message 0x3000)),
          .dispatch .vm_add .VM_NONE,
          .fetch 0x3001 0xD000, .dispatch .vm_res (.VM_OTHER 2),
          .fetch 0x3002 0xF025, .dbg_run none, .dispatch .vm_trap .VM_HALT] := by
  have hC := C10_step_budget demo_env (by intro h w s; cases h <;> rfl)
    (by intro h w s; cases h <;> rfl) (by intro h w s; cases h <;> rfl)
  have ha := hC.1 (vm_execute_start demo_env demo_step_state () ()) 2
    (by decide) (by decide) (by decide)
    (by intro j hj; interval_cases j <;> rfl)
    (by intro j hj; interval_cases j <;> decide)
  have hb := hC.2 (vm_execute_start demo_env demo_bp_state () ()) 2
    (by decide) (by decide) rfl (by decide) (by decide) (by decide)
    (by intro j h1 hj; interval_cases j <;> rfl)
    (by intro j hj; interval_cases j <;> decide)
  exact ⟨ha.2.2, hb.2.2.2⟩

/-! ### Program counter and dispatch -/

theorem vm_post_hook_reg (c : exec_state ω δ) : (vm_post_hook c).v.reg = c.v.reg := by
  unfold vm_post_hook
  split <;> rfl

theorem vm_dispatch_reg (env : vm_env ω δ) (c : exec_state ω δ) :
    (vm_dispatch env c).v.reg
      = (env.handler (selected_handler c.v.ir) c.world c.v).v.reg := by
  cases h : dispatch_signal env c with
  | VM_NONE => rw [vm_dispatch_none env c h]
  | VM_HALT => rw [vm_dispatch_halt env c h]
  | VM_OTHER code => rw [vm_dispatch_other env c code h]

/-- C11: in every iteration of `vm_execute` the handler is invoked on a state whose
program counter is the fetch address plus one modulo `2 ^ 16` (so `0xFFFF` wraps to 0),
whatever the debugger pre-hook did to the state in between: line 106 writes `pc + 1`
from the local `pc` after the pre-hook.  Hence, after a handler that does not write the
program counter, the next fetch is from the following address. -/
theorem C11_pc_advanced_before_handler (env : vm_env ω δ) (c : exec_state ω δ) :
    vm_execute_iter env c
      = vm_post_hook (vm_dispatch env
          (vm_advance (fetch_pc c) (vm_pre_hook env (fetch_pc c) (vm_fetch c)))) ∧
    (vm_advance (fetch_pc c) (vm_pre_hook env (fetch_pc c) (vm_fetch c))).v.reg R_PC
      = (fetch_pc c + 1) % 2 ^ 16 ∧
    (fetch_pc c = 0xFFFF →
      (vm_advance (fetch_pc c) (vm_pre_hook env (fetch_pc c) (vm_fetch c))).v.reg R_PC = 0) ∧
    ((env.handler
        (selected_handler
          (vm_advance (fetch_pc c) (vm_pre_hook env (fetch_pc c) (vm_fetch c))).v.ir)
        (vm_advance (fetch_pc c) (vm_pre_hook env (fetch_pc c) (vm_fetch c))).world
        (vm_advance (fetch_pc c) (vm_pre_hook env (fetch_pc c) (vm_fetch c))).v).v.reg R_PC
        = (vm_advance (fetch_pc c) (vm_pre_hook env (fetch_pc c) (vm_fetch c))).v.reg R_PC →
      fetch_pc (vm_execute_iter env c) = (fetch_pc c + 1) % 2 ^ 16) := by
  have hadv : (vm_advance (fetch_pc c) (vm_pre_hook env (fetch_pc c) (vm_fetch c))).v.reg R_PC
      = (fetch_pc c + 1) % 2 ^ 16 := by
    simp [vm_advance, vm_reg_write]
  refine ⟨rfl, hadv, ?_, ?_⟩
  · intro h
    rw [hadv, h]
    rfl
  · intro h
    have hiter : vm_execute_iter env c
        = vm_post_hook (vm_dispatch env
            (vm_advance (fetch_pc c) (vm_pre_hook env (fetch_pc c) (vm_fetch c)))) := rfl
    rw [fetch_pc, vm_reg_read, hiter, vm_post_hook_reg, vm_dispatch_reg, h, hadv]
    exact Nat.mod_mod _ _

/-- C11, at the last address: from a loop head with the program counter on `0xFFFF` the
handler runs with the program counter 0, and as the handler dispatched there does not
write it, the next fetch is from address 0. -/
theorem C11_pc_advanced_before_handler_witness :
    fetch_pc demo_wrap_exec = 0xFFFF ∧
    fetch_pc (vm_execute_iter demo_env demo_wrap_exec) = 0 :=
  ⟨rfl, (C11_pc_advanced_before_handler demo_env demo_wrap_exec).2.2.2 rfl⟩

theorem table_matches_spec :
    ∀ (k : Nat) (hk : k < vm_execute_instr.length),
      spec_opcode_handler k = some (vm_execute_instr.get ⟨k, hk⟩) := by
  intro k hk
  have h16 : k < 16 := by simpa [vm_execute_instr] using hk
  interval_cases k <;> rfl

theorem opcode_eq_div (w : Nat) (hw : w < 2 ^ 16) : opcode w = w / 4096 := by
  unfold opcode
  rw [Nat.mod_eq_of_lt hw, Nat.shiftRight_eq_div_pow]

theorem selected_handler_congr (w w2 : Nat) (h : opcode w2 = opcode w) :
    selected_handler w2 = selected_handler w := by
  unfold selected_handler
  congr 2

/-- C12: dispatch is total and matches the opcode table.  For every 16-bit instruction
word `w` the index `w >> 12` is below 16, the length of the handler table, and the
handler selected is the one the opcode table of the specification names for that
opcode; two words with the same top four bits select the same handler.  In `vm_execute`
the handler dispatched is the one selected by the latched word. -/
theorem C12_dispatch_total (w : Nat) (hw : w < 2 ^ 16) :
    opcode w = w >>> 12 ∧ w >>> 12 < 16 ∧ vm_execute_instr.length = 16 ∧
    vm_execute_instr[w >>> 12]? = some (selected_handler w) ∧
    spec_opcode_handler (w >>> 12) = some (selected_handler w) ∧
    (∀ w2, w2 < 2 ^ 16 → w2 >>> 12 = w >>> 12 → selected_handler w2 = selected_handler w) ∧
    (∀ (env : vm_env ω δ) (c : exec_state ω δ), c.v.ir = w →
      (vm_dispatch env c).log
        = c.log ++ [.dispatch (selected_handler w) (dispatch_signal env c)]) := by
  have hop : opcode w = w >>> 12 := by
    unfold opcode
    rw [Nat.mod_eq_of_lt hw]
  have hlt : w >>> 12 < 16 := by
    rw [Nat.shiftRight_eq_div_pow]
    omega
  refine ⟨hop, hlt, rfl, ?_, ?_, ?_, ?_⟩
  · have h : vm_execute_instr[opcode w]? = some (selected_handler w) := by
      unfold selected_handler
      rw [List.getElem?_eq_getElem]
      rfl
    rw [← hop]
    exact h
  · rw [← hop]
    exact table_matches_spec (opcode w) _
  · intro w2 hw2 h
    apply selected_handler_congr
    unfold opcode
    rw [Nat.mod_eq_of_lt hw, Nat.mod_eq_of_lt hw2]
    exact h
  · intro env c hir
    rw [vm_dispatch_log, hir]

/-- C12, on the halt trap word `0xF025`: index 15, the handler `vm_trap`, as for every
other word with the top four bits set. -/
theorem C12_dispatch_total_witness :
    (0xF025 : Nat) >>> 12 < 16 ∧ selected_handler 0xF025 = .vm_trap ∧
    spec_opcode_handler (0xF025 >>> 12) = some (selected_handler 0xF025) ∧
    selected_handler 0xFFFF = selected_handler 0xF025 := by
  have h := @C12_dispatch_total Unit Unit 0xF025 (by decide)
  exact ⟨h.2.1, rfl, h.2.2.2.2.1, h.2.2.2.2.2.1 0xFFFF (by decide) (by decide)⟩

/-! ### A session that clears `running` -/

/-- C13, as stated, fails: in the example with a breakpoint on `0x3000` and a reserved
word there, the session entered for the breakpoint returns with `running` cleared, the
handler of the reserved word returns a signal other than `VM_NONE` and `VM_HALT`, line 120
sets `running` to 1, and the loop goes on to fetch the word at `0x3001`. -/
theorem C13_quit_overridden :
    (vm_pre_hook demo_quit_env (fetch_pc (vm_execute_start demo_quit_env demo_res_state () 0))
      (vm_fetch (vm_execute_start demo_quit_env demo_res_state () 0))).v.running = 0 ∧
    (vm_execute_iter demo_quit_env
      (vm_execute_start demo_quit_env demo_res_state () 0)).v.running = 1 ∧
    (iter_n demo_quit_env 2 (vm_execute_start demo_quit_env demo_res_state () 0)).log
      = [.dbg_run (some usage_message),
          .fetch 0x3000 0xD000, .dbg_run (some (breakpoint_message 0x3000)),
          .dispatch .vm_res (.VM_OTHER 2),
          .fetch 0x3001 0xF025, .dispatch .vm_trap .VM_HALT] := by
  refine ⟨by rfl, by rfl, by rfl⟩

/-- C13, amended: if the pre-hook of an iteration leaves `running` cleared (the debugger
session returned with `running` cleared), the current instruction is still dispatched.
When its handler signals `VM_HALT`, or signals `VM_NONE` and leaves `running` as it found
it, `running` is clear at the end of the iteration and the loop returns without another
iteration.  When the handler returns any other signal, `running` is 1 at the end of the
iteration and the loop goes on with the next iteration. -/
theorem C13_debugger_quit (env : vm_env ω δ) (c : exec_state ω δ)
    (hquit : (vm_pre_hook env (fetch_pc c) (vm_fetch c)).v.running = 0) :
    (vm_execute_iter env c).log
      = (vm_pre_hook env (fetch_pc c) (vm_fetch c)).log
        ++ [.dispatch (selected_handler (vm_pre_hook env (fetch_pc c) (vm_fetch c)).v.ir)
              (iter_signal env c)] ∧
    (iter_signal env c = .VM_HALT →
      (vm_execute_iter env c).v.running = 0 ∧
      ∀ fuel, vm_execute_loop env fuel (vm_execute_iter env c)
        = some (vm_execute_iter env c)) ∧
    (iter_signal env c = .VM_NONE →
      (env.handler
        (selected_handler
          (vm_advance (fetch_pc c) (vm_pre_hook env (fetch_pc c) (vm_fetch c))).v.ir)
        (vm_advance (fetch_pc c) (vm_pre_hook env (fetch_pc c) (vm_fetch c))).world
        (vm_advance (fetch_pc c) (vm_pre_hook env (fetch_pc c) (vm_fetch c))).v).v.running
        = (vm_advance (fetch_pc c) (vm_pre_hook env (fetch_pc c) (vm_fetch c))).v.running →
      (vm_execute_iter env c).v.running = 0 ∧
      ∀ fuel, vm_execute_loop env fuel (vm_execute_iter env c)
        = some (vm_execute_iter env c)) ∧
    (∀ code, iter_signal env c = .VM_OTHER code →
      (vm_execute_iter env c).v.running = 1 ∧
      ∀ fuel, vm_execute_loop env (fuel + 1) (vm_execute_iter env c)
        = vm_execute_loop env fuel (vm_execute_iter env (vm_execute_iter env c))) := by
  refine ⟨iter_log env c, ?_, ?_, ?_⟩
  · intro hs
    have hrun : (vm_execute_iter env c).v.running = 0 := by rw [iter_running, hs]
    exact ⟨hrun, fun fuel => vm_execute_loop_done env fuel _ hrun⟩
  · intro hs hkeep
    have hrun : (vm_execute_iter env c).v.running = 0 := by
      rw [iter_running, hs]
      simp only []
      rw [hkeep]
      exact hquit
    exact ⟨hrun, fun fuel => vm_execute_loop_done env fuel _ hrun⟩
  · intro code hs
    have hrun : (vm_execute_iter env c).v.running = 1 := by rw [iter_running, hs]
    exact ⟨hrun, fun fuel => vm_execute_loop_step env fuel _ (by rw [hrun]; decide)⟩

/-- C13 amended, on the example session that clears `running` at a breakpoint on
`0x3000`: with the `ADD` word there the iteration ends with `running` clear and the loop
returns; with a reserved word there the iteration ends with `running` set. -/
theorem C13_debugger_quit_witness :
    ((vm_execute_iter demo_quit_env
        (vm_execute_start demo_quit_env demo_bp_state () 0)).v.running = 0 ∧
      vm_execute_loop demo_quit_env 5
          (vm_execute_iter demo_quit_env (vm_execute_start demo_quit_env demo_bp_state () 0))
        = some (vm_execute_iter demo_quit_env
            (vm_execute_start demo_quit_env demo_bp_state () 0))) ∧
    (vm_execute_iter demo_quit_env
      (vm_execute_start demo_quit_env demo_res_state () 0)).v.running = 1 := by
  have h1 := (C13_debugger_quit demo_quit_env
    (vm_execute_start demo_quit_env demo_bp_state () 0) (by rfl)).2.2.1 (by rfl) (by rfl)
  have h2 := (C13_debugger_quit demo_quit_env
    (vm_execute_start demo_quit_env demo_res_state () 0) (by rfl)).2.2.2 2 (by rfl)
  exact ⟨⟨h1.1, h1.2 5⟩, h2.1⟩

/-! ### Initialisation -/

theorem zero_fill_apply (a : Nat → Nat) (n i : Nat) :
    zero_fill a n i = if i < n then 0 else a i := by
  induction n with
  | zero => simp [zero_fill]
  | succ n ih =>
    simp only [zero_fill, Function.update]
    by_cases h : i = n
    · subst h
      simp
    · have h1 : (i < n + 1) ↔ (i < n) := by omega
      simp [h, ih, h1]

/-- C14: after `vm_init`, whatever the state held before and whatever `use_debugger` is,
all registers of the register file (R0-R7, pc, cond) are 0, every memory word is 0, `ir`
is 0, `running` is 0, `debugger_steps` is -1 and `debugger_enabled` equals `use_debugger`;
this is stated for a debugger set-up `vm_dbg_init` (called when `use_debugger` is
non-zero) that leaves these fields alone. -/
theorem C14_vm_init_zeroes (vm_dbg_init : vm_state → vm_state)
    (hinit : ∀ s, (vm_dbg_init s).reg = s.reg ∧ (vm_dbg_init s).mem = s.mem ∧
      (vm_dbg_init s).ir = s.ir ∧ (vm_dbg_init s).running = s.running ∧
      (vm_dbg_init s).debugger_enabled = s.debugger_enabled ∧
      (vm_dbg_init s).debugger_steps = s.debugger_steps)
    (v : vm_state) (use_debugger : Int) :
    (∀ r, r < R_COUNT → (vm_init vm_dbg_init v use_debugger).reg r = 0) ∧
    (vm_init vm_dbg_init v use_debugger).reg R_PC = 0 ∧
    (vm_init vm_dbg_init v use_debugger).reg R_COND = 0 ∧
    (∀ a, a < VM_MEM_SIZE → (vm_init vm_dbg_init v use_debugger).mem a = 0) ∧
    (vm_init vm_dbg_init v use_debugger).ir = 0 ∧
    (vm_init vm_dbg_init v use_debugger).running = 0 ∧
    (vm_init vm_dbg_init v use_debugger).debugger_steps = -1 ∧
    (vm_init vm_dbg_init v use_debugger).debugger_enabled = use_debugger := by
  have hreg : ∀ r, r < R_COUNT → (vm_init vm_dbg_init v use_debugger).reg r = 0 := by
    intro r hr
    unfold vm_init
    simp only []
    split
    · rw [(hinit _).1]
      simp [zero_fill_apply, hr]
    · simp [zero_fill_apply, hr]
  refine ⟨hreg, hreg R_PC (by decide), hreg R_COND (by decide), ?_, ?_, ?_, ?_, ?_⟩
  · intro a ha
    unfold vm_init
    simp only []
    split
    · rw [(hinit _).2.1]
      simp [zero_fill_apply, ha]
    · simp [zero_fill_apply, ha]
  · unfold vm_init
    simp only []
    split
    · rw [(hinit _).2.2.1]
    · rfl
  · unfold vm_init
    simp only []
    split
    · rw [(hinit _).2.2.2.1]
    · rfl
  · unfold vm_init
    simp only []
    split
    · rw [(hinit _).2.2.2.2.2]
    · rfl
  · unfold vm_init
    simp only []
    split
    · rw [(hinit _).2.2.2.2.1]
    · rfl

/-- C14, on the example machine (program loaded, breakpoint set, debugger on) and
`use_debugger = 1`: afterwards the program counter and the word at `0x3000` are 0,
`running` is 0, the step budget is -1 and the debugger is on. -/
theorem C14_vm_init_zeroes_witness :
    (vm_init demo_dbg_init demo_bp_state 1).reg R_PC = 0 ∧
    (vm_init demo_dbg_init demo_bp_state 1).mem 0x3000 = 0 ∧
    (vm_init demo_dbg_init demo_bp_state 1).running = 0 ∧
    (vm_init demo_dbg_init demo_bp_state 1).debugger_steps = -1 ∧
    (vm_init demo_dbg_init demo_bp_state 1).debugger_enabled = 1 := by
  have h := C14_vm_init_zeroes demo_dbg_init
    (by intro s; exact ⟨rfl, rfl, rfl, rfl, rfl, rfl⟩) demo_bp_state 1
  exact ⟨h.2.1, h.2.2.2.1 0x3000 (by decide), h.2.2.2.2.2.1, h.2.2.2.2.2.2.1,
    h.2.2.2.2.2.2.2⟩

/-! ### The hooks with debugging disabled -/

theorem vm_post_hook_session (c : exec_state ω δ) : (vm_post_hook c).session = c.session := by
  unfold vm_post_hook
  split <;> rfl

theorem vm_dispatch_session (env : vm_env ω δ) (c : exec_state ω δ) :
    (vm_dispatch env c).session = c.session := by
  cases h : dispatch_signal env c with
  | VM_NONE => rw [vm_dispatch_none env c h]
  | VM_HALT => rw [vm_dispatch_halt env c h]
  | VM_OTHER code => rw [vm_dispatch_other env c code h]

theorem iter_disabled_frame (env : vm_env ω δ)
    (hh_en : ∀ h w s, (env.handler h w s).v.debugger_enabled = s.debugger_enabled)
    (hh_steps : ∀ h w s, (env.handler h w s).v.debugger_steps = s.debugger_steps)
    (c : exec_state ω δ) (hdis : c.v.debugger_enabled = 0) :
    (vm_execute_iter env c).v.debugger_steps = c.v.debugger_steps ∧
    (vm_execute_iter env c).session = c.session ∧
    (vm_execute_iter env c).log.filter vm_event.is_dbg = c.log.filter vm_event.is_dbg := by
  refine ⟨?_, ?_, ?_⟩
  · rw [iter_disabled env c hdis, vm_post_hook_disabled, vm_dispatch_steps, hh_steps]
    · rfl
    · rw [vm_dispatch_enabled, hh_en]
      exact hdis
  · rw [iter_disabled env c hdis, vm_post_hook_session, vm_dispatch_session]
    rfl
  · rw [iter_disabled_log env c hdis]
    simp [List.filter_append, List.filter, vm_event.is_dbg]

theorem iter_n_disabled_frame (env : vm_env ω δ)
    (hh_en : ∀ h w s, (env.handler h w s).v.debugger_enabled = s.debugger_enabled)
    (hh_steps : ∀ h w s, (env.handler h w s).v.debugger_steps = s.debugger_steps)
    (c : exec_state ω δ) (hdis : c.v.debugger_enabled = 0) :
    ∀ n, (iter_n env n c).v.debugger_steps = c.v.debugger_steps ∧
      (iter_n env n c).session = c.session ∧
      (iter_n env n c).log.filter vm_event.is_dbg = c.log.filter vm_event.is_dbg := by
  intro n
  induction n with
  | zero => exact ⟨rfl, rfl, rfl⟩
  | succ n ih =>
    obtain ⟨h1, h2, h3⟩ := iter_disabled_frame env hh_en hh_steps (iter_n env n c)
      (iter_n_disabled_enabled env hh_en c hdis n)
    rw [iter_n_succ]
    exact ⟨h1.trans ih.1, h2.trans ih.2.1, h3.trans ih.2.2⟩

/-- C15: with debugging disabled the hook points are no-ops.  On a state with
`debugger_enabled` 0 the pre-hook and the post-hook change nothing, whatever
`debugger_steps` and the breakpoint flags hold, and the call before the loop is not made.
So, for handlers that write neither `debugger_enabled` nor `debugger_steps`, after any
number of iterations of a run started with debugging disabled the record holds no call
of the debugger entry point, the session is untouched and `debugger_steps` has the value
it had on entry; the same holds for the state a run returns. -/
theorem C15_hooks_noop_when_disabled (env : vm_env ω δ) (v : vm_state) (w : ω) (d : δ)
    (hdis : v.debugger_enabled = 0)
    (hh_en : ∀ h w s, (env.handler h w s).v.debugger_enabled = s.debugger_enabled)
    (hh_steps : ∀ h w s, (env.handler h w s).v.debugger_steps = s.debugger_steps) :
    (∀ (c : exec_state ω δ) (pc : Nat), c.v.debugger_enabled = 0 →
      vm_pre_hook env pc c = c ∧ vm_post_hook c = c) ∧
    (vm_execute_start env v w d).log = [] ∧
    (∀ n, (iter_n env n (vm_execute_start env v w d)).log.filter vm_event.is_dbg = [] ∧
      (iter_n env n (vm_execute_start env v w d)).v.debugger_steps = v.debugger_steps ∧
      (iter_n env n (vm_execute_start env v w d)).session = d) ∧
    (∀ fuel cf, vm_execute env fuel v w d = some cf →
      cf.log.filter vm_event.is_dbg = [] ∧ cf.v.debugger_steps = v.debugger_steps ∧
      cf.session = d) := by
  have hstart := vm_execute_start_disabled env v w d hdis
  have hdis0 : (vm_execute_start env v w d).v.debugger_enabled = 0 := by
    rw [hstart]; exact hdis
  have hall : ∀ n,
      (iter_n env n (vm_execute_start env v w d)).log.filter vm_event.is_dbg = [] ∧
      (iter_n env n (vm_execute_start env v w d)).v.debugger_steps = v.debugger_steps ∧
      (iter_n env n (vm_execute_start env v w d)).session = d := by
    intro n
    obtain ⟨h1, h2, h3⟩ := iter_n_disabled_frame env hh_en hh_steps _ hdis0 n
    rw [h1, h2, h3, hstart]
    exact ⟨rfl, rfl, rfl⟩
  refine ⟨fun c pc hc => ⟨vm_pre_hook_disabled env pc c hc, vm_post_hook_disabled c hc⟩,
    by rw [hstart], hall, ?_⟩
  intro fuel cf hterm
  obtain ⟨n, _, hcf, _, _⟩ := vm_execute_loop_some env fuel _ cf hterm
  rw [hcf]
  exact hall n

/-- C15, on the example program with the debugger off, the step budget at 0 and a
breakpoint flag on every address: after three iterations the record holds no debugger
call and the step budget is still 0. -/
theorem C15_hooks_noop_when_disabled_witness :
    (iter_n demo_env 3 (vm_execute_start demo_env
        { demo_state with debugger_steps := 0, mem_conds := fun _ => true } () ())).log.filter
        vm_event.is_dbg = [] ∧
    (iter_n demo_env 3 (vm_execute_start demo_env
        { demo_state with debugger_steps := 0, mem_conds := fun _ => true } () ())).v.debugger_steps
      = 0 := by
  have h := (C15_hooks_noop_when_disabled demo_env
    { demo_state with debugger_steps := 0, mem_conds := fun _ => true } () () rfl
    (by intro h w s; cases h <;> rfl) (by intro h w s; cases h <;> rfl)).2.2.1 3
  exact ⟨h.1, h.2.1⟩

/-! ### The pre-hook, case by case -/

theorem iter_dbg_count_le (env : vm_env ω δ) (c : exec_state ω δ) :
    ((vm_execute_iter env c).log.filter vm_event.is_dbg).length
      ≤ (c.log.filter vm_event.is_dbg).length + 1 := by
  obtain ⟨dbgs, _, hlen, hlog⟩ := iter_log_events env c
  rw [hlog]
  simp only [List.filter_append, List.length_append]
  have h1 : (List.filter vm_event.is_dbg
      (vm_event.fetch (fetch_pc c) (c.v.mem (fetch_pc c)) :: dbgs)).length ≤ dbgs.length := by
    have : List.filter vm_event.is_dbg
        (vm_event.fetch (fetch_pc c) (c.v.mem (fetch_pc c)) :: dbgs)
        = List.filter vm_event.is_dbg dbgs := by
      simp [List.filter, vm_event.is_dbg]
    rw [this]
    exact List.length_filter_le _ _
  have h2 : (List.filter vm_event.is_dbg
      [vm_event.dispatch (selected_handler (vm_pre_hook env (fetch_pc c) (vm_fetch c)).v.ir)
        (iter_signal env c)]).length = 0 := by
    simp [List.filter, vm_event.is_dbg]
  omega

/-- C16: the pre-hook with debugging enabled.  In an iteration the debugger entry point
is invoked at most once.  If the fetch address carries the breakpoint flag, it is invoked
with the breakpoint message and the state the session returns is taken as it is: the
step budget is the one the session left, also when it is zero.  Otherwise, if the step
budget is exactly zero, it is invoked with no message and the step budget is -1 when the
handler is dispatched, whatever the session wrote.  Otherwise it is not invoked and the
pre-hook changes nothing. -/
theorem C16_pre_hook_cases (env : vm_env ω δ) (c : exec_state ω δ)
    (hen : c.v.debugger_enabled ≠ 0) :
    ((vm_execute_iter env c).log.filter vm_event.is_dbg).length
      ≤ (c.log.filter vm_event.is_dbg).length + 1 ∧
    (check_flag c.v.mem_conds (fetch_pc c) = true →
      vm_pre_hook env (fetch_pc c) (vm_fetch c)
        = call_dbg env (vm_fetch c) (some (breakpoint_message (fetch_pc c))) ∧
      (vm_pre_hook env (fetch_pc c) (vm_fetch c)).log
        = (vm_fetch c).log ++ [.dbg_run (some (breakpoint_message (fetch_pc c)))] ∧
      (vm_advance (fetch_pc c) (vm_pre_hook env (fetch_pc c) (vm_fetch c))).v.debugger_steps
        = (env.vm_dbg_run c.session c.world (vm_fetch c).v
            (some (breakpoint_message (fetch_pc c)))).v.debugger_steps) ∧
    (check_flag c.v.mem_conds (fetch_pc c) = false → c.v.debugger_steps = 0 →
      (vm_pre_hook env (fetch_pc c) (vm_fetch c)).log
        = (vm_fetch c).log ++ [.dbg_run none] ∧
      (vm_pre_hook env (fetch_pc c) (vm_fetch c)).v
        = { (env.vm_dbg_run c.session c.world (vm_fetch c).v none).v with
            debugger_steps := -1 } ∧
      (vm_advance (fetch_pc c) (vm_pre_hook env (fetch_pc c) (vm_fetch c))).v.debugger_steps
        = -1) ∧
    (check_flag c.v.mem_conds (fetch_pc c) = false → c.v.debugger_steps ≠ 0 →
      vm_pre_hook env (fetch_pc c) (vm_fetch c) = vm_fetch c) := by
  refine ⟨iter_dbg_count_le env c, ?_, ?_, ?_⟩
  · intro hbp
    have hpre := vm_pre_hook_breakpoint env (fetch_pc c) (vm_fetch c)
      (by rw [vm_fetch_v]; exact hen) (by rw [vm_fetch_v]; exact hbp)
    refine ⟨hpre, ?_, ?_⟩
    · rw [hpre]; rfl
    · rw [hpre]; rfl
  · intro hnobp hzero
    have hpre : vm_pre_hook env (fetch_pc c) (vm_fetch c)
        = { call_dbg env (vm_fetch c) none with
            v := { (call_dbg env (vm_fetch c) none).v with debugger_steps := -1 } } := by
      have h1 : (vm_fetch c).v.debugger_enabled ≠ 0 := by rw [vm_fetch_v]; exact hen
      have h2 : check_flag (vm_fetch c).v.mem_conds (fetch_pc c) = false := by
        rw [vm_fetch_v]; exact hnobp
      have h3 : (vm_fetch c).v.debugger_steps = 0 := by rw [vm_fetch_v]; exact hzero
      simp [vm_pre_hook, h1, h2, h3]
    refine ⟨?_, ?_, ?_⟩
    · rw [hpre]; rfl
    · rw [hpre]; rfl
    · rw [hpre]; rfl
  · intro hnobp hsteps
    exact vm_pre_hook_idle env _ _ (by rw [vm_fetch_v]; exact hnobp)
      (by rw [vm_fetch_v]; exact hsteps)

/-- C16, on the example program.  With a breakpoint on `0x3000` the first iteration calls
the debugger once, with the breakpoint message.  Without a breakpoint and with the budget
of 2 used up, the third iteration calls it with no message and dispatches with the budget
at -1, though the session wrote 2. -/
theorem C16_pre_hook_cases_witness :
    (vm_pre_hook demo_env 0x3000
        (vm_fetch (vm_execute_start demo_env demo_bp_state () ()))).log
      = [.dbg_run (some usage_message), .fetch 0x3000 0x1021,
          .dbg_run (some (breakpoint_message 0x3000))] ∧
    (vm_advance 0x3002 (vm_pre_hook demo_env 0x3002
        (vm_fetch (iter_n demo_env 2
          (vm_execute_start demo_env demo_step_state () ()))))).v.debugger_steps = -1 := by
  have h1 := (C16_pre_hook_cases demo_env (vm_execute_start demo_env demo_bp_state () ())
    (by decide)).2.1 (by rfl)
  have h2 := (C16_pre_hook_cases demo_env
    (iter_n demo_env 2 (vm_execute_start demo_env demo_step_state () ()))
    (by decide)).2.2.1 (by rfl) (by rfl)
  exact ⟨h1.2.1, h2.2.2⟩

/-! ### The entry point -/

/-- C17: `vm_execute` always starts from the fixed entry point.  With debugging disabled,
whatever the program counter and `running` held before the call, the loop is entered with
`running` set to 1 and the program counter at `PC_START` (`0x3000`); memory and the other
registers are as they were on entry; the loop body runs at least once, and its first
iteration fetches the word at `PC_START` and dispatches the handler that word selects. -/
theorem C17_fixed_entry_point (env : vm_env ω δ) (v : vm_state) (w : ω) (d : δ)
    (hdis : v.debugger_enabled = 0) :
    PC_START = 0x3000 ∧
    (vm_execute_start env v w d).v.running = 1 ∧
    fetch_pc (vm_execute_start env v w d) = PC_START ∧
    (vm_execute_start env v w d).v.mem = v.mem ∧
    (∀ r, r ≠ R_PC → (vm_execute_start env v w d).v.reg r = v.reg r) ∧
    (vm_execute_start env v w d).log = [] ∧
    (∀ fuel, vm_execute env (fuel + 1) v w d
      = vm_execute_loop env fuel (vm_execute_iter env (vm_execute_start env v w d))) ∧
    (vm_execute_iter env (vm_execute_start env v w d)).log
      = [.fetch PC_START (v.mem PC_START),
          .dispatch (selected_handler (v.mem PC_START))
            (iter_signal env (vm_execute_start env v w d))] := by
  have hstart := vm_execute_start_disabled env v w d hdis
  have hpc : fetch_pc (vm_execute_start env v w d) = PC_START := by
    rw [hstart]
    simp [fetch_pc, vm_reg_read, PC_START]
  have hdis0 : (vm_execute_start env v w d).v.debugger_enabled = 0 := by
    rw [hstart]; exact hdis
  have hmem : (vm_execute_start env v w d).v.mem = v.mem := by rw [hstart]
  have hlog : (vm_execute_start env v w d).log = [] := by rw [hstart]
  refine ⟨rfl, by rw [hstart], hpc, hmem, ?_, hlog, ?_, ?_⟩
  · intro r hr
    rw [hstart]
    simp [Function.update, hr]
  · intro fuel
    unfold vm_execute
    exact vm_execute_loop_step env fuel _ (by rw [hstart]; simp)
  · rw [iter_disabled_log env _ hdis0, hpc, hmem, hlog]
    rfl

/-- C17, on the example program entered with the program counter at `0x1234` and
`running` clear: the first iteration fetches the `ADD` word at `0x3000`. -/
theorem C17_fixed_entry_point_witness :
    (vm_execute_iter demo_env (vm_execute_start demo_env
        { demo_state with reg := fun _ => 0x1234, running := 0 } () ())).log
      = [.fetch 0x3000 0x1021, .dispatch .vm_add .VM_NONE] :=
  (C17_fixed_entry_point demo_env
    { demo_state with reg := fun _ => 0x1234, running := 0 } () () rfl).2.2.2.2.2.2.2

/-! ### The step budget never runs below -1 -/

theorem vm_pre_hook_steps_ge (env : vm_env ω δ)
    (hdbg : ∀ d w s msg, -1 ≤ (env.vm_dbg_run d w s msg).v.debugger_steps)
    (pc : Nat) (c : exec_state ω δ) (hinv : -1 ≤ c.v.debugger_steps) :
    -1 ≤ (vm_pre_hook env pc c).v.debugger_steps := by
  unfold vm_pre_hook
  split
  · exact hdbg _ _ _ _
  · split
    · exact le_refl _
    · exact hinv

theorem iter_steps_eq (env : vm_env ω δ)
    (hh_steps : ∀ h w s, (env.handler h w s).v.debugger_steps = s.debugger_steps)
    (c : exec_state ω δ) :
    (vm_dispatch env (vm_advance (fetch_pc c)
        (vm_pre_hook env (fetch_pc c) (vm_fetch c)))).v.debugger_steps
      = (vm_pre_hook env (fetch_pc c) (vm_fetch c)).v.debugger_steps := by
  rw [vm_dispatch_steps, hh_steps]
  rfl

theorem iter_steps_ge (env : vm_env ω δ)
    (hh_steps : ∀ h w s, (env.handler h w s).v.debugger_steps = s.debugger_steps)
    (hdbg : ∀ d w s msg, -1 ≤ (env.vm_dbg_run d w s msg).v.debugger_steps)
    (c : exec_state ω δ) (hinv : -1 ≤ c.v.debugger_steps) :
    -1 ≤ (vm_execute_iter env c).v.debugger_steps := by
  have hpre := vm_pre_hook_steps_ge env hdbg (fetch_pc c) (vm_fetch c)
    (by rw [vm_fetch_v]; exact hinv)
  have hiter : vm_execute_iter env c
      = vm_post_hook (vm_dispatch env
          (vm_advance (fetch_pc c) (vm_pre_hook env (fetch_pc c) (vm_fetch c)))) := rfl
  rw [hiter, vm_post_hook_steps, iter_steps_eq env hh_steps c]
  split
  · rename_i h
    have h2 := h.2
    omega
  · exact hpre

/-- C18: the step budget never runs below -1.  For handlers that do not write
`debugger_steps` and a debugger session that always returns with `debugger_steps ≥ -1`,
an iteration started with `debugger_steps ≥ -1` ends with `debugger_steps ≥ -1`, and so
does any number of iterations.  The post-hook leaves a budget of -1 as it is; a budget of
0 met with debugging on and no breakpoint is reset to -1 by the pre-hook and is -1 at the
end of the iteration; a budget of 0 that reaches the post-hook with debugging on is
decremented to -1. -/
theorem C18_step_budget_invariant (env : vm_env ω δ)
    (hh_steps : ∀ h w s, (env.handler h w s).v.debugger_steps = s.debugger_steps)
    (hdbg : ∀ d w s msg, -1 ≤ (env.vm_dbg_run d w s msg).v.debugger_steps)
    (c : exec_state ω δ) (hinv : -1 ≤ c.v.debugger_steps) :
    -1 ≤ (vm_execute_iter env c).v.debugger_steps ∧
    (∀ n, -1 ≤ (iter_n env n c).v.debugger_steps) ∧
    (∀ x : exec_state ω δ, x.v.debugger_steps = -1 → vm_post_hook x = x) ∧
    (∀ x : exec_state ω δ, x.v.debugger_enabled ≠ 0 → x.v.debugger_steps = 0 →
      (vm_post_hook x).v.debugger_steps = -1) ∧
    (c.v.debugger_enabled ≠ 0 → check_flag c.v.mem_conds (fetch_pc c) = false →
      c.v.debugger_steps = 0 →
      (vm_pre_hook env (fetch_pc c) (vm_fetch c)).v.debugger_steps = -1 ∧
      (vm_execute_iter env c).v.debugger_steps = -1) := by
  refine ⟨iter_steps_ge env hh_steps hdbg c hinv, ?_, ?_, ?_, ?_⟩
  · intro n
    induction n with
    | zero => exact hinv
    | succ n ih =>
      rw [iter_n_succ]
      exact iter_steps_ge env hh_steps hdbg _ ih
  · intro x hx
    simp [vm_post_hook, hx]
  · intro x hen hx
    rw [vm_post_hook_steps, if_pos ⟨hen, by rw [hx]; decide⟩, hx]
    rfl
  · intro hen hnobp hzero
    have h1 : (vm_fetch c).v.debugger_enabled ≠ 0 := by rw [vm_fetch_v]; exact hen
    have h2 : check_flag (vm_fetch c).v.mem_conds (fetch_pc c) = false := by
      rw [vm_fetch_v]; exact hnobp
    have h3 : (vm_fetch c).v.debugger_steps = 0 := by rw [vm_fetch_v]; exact hzero
    have hpre : (vm_pre_hook env (fetch_pc c) (vm_fetch c)).v.debugger_steps = -1 := by
      simp [vm_pre_hook, h1, h2, h3]
    have hiter : vm_execute_iter env c
        = vm_post_hook (vm_dispatch env
            (vm_advance (fetch_pc c) (vm_pre_hook env (fetch_pc c) (vm_fetch c)))) := rfl
    refine ⟨hpre, ?_⟩
    rw [hiter, vm_post_hook_steps, iter_steps_eq env hh_steps c, hpre]
    simp

/-- C18, on the example program stepped with a budget of 2: the budget is at least -1
after three iterations, and the third iteration, entered with the budget at 0, ends with
the budget at -1. -/
theorem C18_step_budget_invariant_witness :
    (-1 : Int) ≤ (iter_n demo_env 3
      (vm_execute_start demo_env demo_step_state () ())).v.debugger_steps ∧
    (vm_execute_iter demo_env (iter_n demo_env 2
      (vm_execute_start demo_env demo_step_state () ()))).v.debugger_steps = -1 := by
  have h1 := (C18_step_budget_invariant demo_env (by intro h w s; cases h <;> rfl)
    (by intro d w s msg; show (-1 : Int) ≤ 2; decide)
    (vm_execute_start demo_env demo_step_state () ()) (by decide)).2.1 3
  have h2 := (C18_step_budget_invariant demo_env (by intro h w s; cases h <;> rfl)
    (by intro d w s msg; show (-1 : Int) ≤ 2; decide)
    (iter_n demo_env 2 (vm_execute_start demo_env demo_step_state () ()))
    (by decide)).2.2.2.2 (by decide) (by rfl) (by rfl)
  exact ⟨h1, h2.2⟩

/-! ### The latched instruction -/

theorem vm_pre_hook_ir (env : vm_env ω δ)
    (hir : ∀ d w s msg, (env.vm_dbg_run d w s msg).v.ir = s.ir)
    (pc : Nat) (c : exec_state ω δ) : (vm_pre_hook env pc c).v.ir = c.v.ir := by
  unfold vm_pre_hook
  split
  · exact hir _ _ _ _
  · split
    · exact hir _ _ _ _
    · rfl

/-- C19: the instruction executed in an iteration is the one latched at fetch.  The
fetch stores the word at `mem[pc]` in `ir`; the handler dispatched is the table entry at
the top four bits of `ir` as it stands after the pre-hook.  So, for a debugger session
that leaves `ir` untouched, the handler dispatched is the one selected by the word that
was at `mem[pc]` before the session ran, whatever the session did to memory. -/
theorem C19_latched_instruction (env : vm_env ω δ) (c : exec_state ω δ) :
    (vm_fetch c).v.ir = c.v.mem (fetch_pc c) ∧
    (vm_execute_iter env c).log
      = (vm_pre_hook env (fetch_pc c) (vm_fetch c)).log
        ++ [.dispatch (selected_handler (vm_pre_hook env (fetch_pc c) (vm_fetch c)).v.ir)
              (iter_signal env c)] ∧
    vm_execute_instr[((vm_pre_hook env (fetch_pc c) (vm_fetch c)).v.ir % 2 ^ 16) >>> 12]?
      = some (selected_handler (vm_pre_hook env (fetch_pc c) (vm_fetch c)).v.ir) ∧
    ((∀ d w s msg, (env.vm_dbg_run d w s msg).v.ir = s.ir) →
      (vm_pre_hook env (fetch_pc c) (vm_fetch c)).v.ir = c.v.mem (fetch_pc c) ∧
      (vm_execute_iter env c).log
        = (vm_pre_hook env (fetch_pc c) (vm_fetch c)).log
          ++ [.dispatch (selected_handler (c.v.mem (fetch_pc c))) (iter_signal env c)]) := by
  refine ⟨rfl, iter_log env c, ?_, ?_⟩
  · unfold selected_handler
    rw [List.getElem?_eq_getElem]
    rfl
  · intro hir
    have h : (vm_pre_hook env (fetch_pc c) (vm_fetch c)).v.ir = c.v.mem (fetch_pc c) := by
      rw [vm_pre_hook_ir env hir]
      rfl
    refine ⟨h, ?_⟩
    rw [iter_log, h]

/-- C19, on the example program with a breakpoint on `0x3000` and a session that, entered
for the breakpoint, stores the halt trap word at `0x3000`: the iteration still dispatches
the `ADD` handler of the word that was latched, and memory holds the new word. -/
theorem C19_latched_instruction_witness :
    (vm_execute_iter demo_patch_env
        (vm_execute_start demo_patch_env demo_bp_state () 0)).log
      = [.dbg_run (some usage_message), .fetch 0x3000 0x1021,
          .dbg_run (some (breakpoint_message 0x3000)), .dispatch .vm_add .VM_NONE] ∧
    (vm_execute_iter demo_patch_env
        (vm_execute_start demo_patch_env demo_bp_state () 0)).v.mem 0x3000 = 0xF025 := by
  have h := (C19_latched_instruction demo_patch_env
    (vm_execute_start demo_patch_env demo_bp_state () 0)).2.2.2
    (by
      intro d w s msg
      show (if d = 0 then s else _).ir = s.ir
      split <;> rfl)
  exact ⟨h.2, by rfl⟩

end engine

end VM
